import Mathlib

/-!
Verification of the SSE connection registry and dispatch service
(`src/features/sse/services/sse-manager.ts`, `sse-service.ts`).

The registry state (three JavaScript `Map`s: primary client map, user index,
session index) is embedded as association lists that keep insertion order,
since `Map` and `Set` iteration order in JavaScript is insertion order and the
eviction logic depends on it.  Sinks (`ReadableStreamDefaultController`) are
modelled by a success flag `writeOk` plus a log `written` of successfully
enqueued payloads; every send operation additionally returns the trace of
enqueue calls it performed, so that "attempts a sink write" is observable.
JavaScript truthiness tests on optional strings and numbers (`if (client.userId)`,
`if (event.retry)`, `if (oldestClientId)`) are modelled explicitly.
-/

namespace SSE

/-- JS truthiness of an optional string: `undefined` and `""` are falsy. -/
def truthyStr : Option String → Bool
  | none => false
  | some s => s ≠ ""

/-- JS truthiness of an optional number: `undefined` and `0` are falsy. -/
def truthyNum : Option Int → Bool
  | none => false
  | some n => n ≠ 0

/-- `SSEEvent` from `sse-utils.ts`: `event` and `data` are required strings,
`id` and `retry` optional. -/
structure SSEEvent where
  event : String
  data : String
  id : Option String := none
  retry : Option Int := none
deriving Repr, DecidableEq

/-- `SSEClient` from `sse-utils.ts`.  The `controller` sink is modelled by
`writeOk` (whether `enqueue` succeeds) and `written` (payloads successfully
enqueued); `events` and `retryTimeout` are irrelevant to the registry logic. -/
structure SSEClient where
  id : String
  userId : Option String := none
  sessionId : Option String := none
  isConnected : Bool := true
  lastPing : Int := 0
  writeOk : Bool := true
  written : List String := []
deriving Repr, DecidableEq

/-! ### Association-list model of JavaScript `Map` -/

/-- `Map.get`: value of the first entry with the given key. -/
def mapLookup (k : String) : List (String × α) → Option α
  | [] => none
  | p :: ps => if p.1 = k then some p.2 else mapLookup k ps

/-- `Map.delete`: remove the entry with the given key. -/
def eraseKey (k : String) : List (String × α) → List (String × α)
  | [] => []
  | p :: ps => if p.1 = k then ps else p :: eraseKey k ps

/-- `Map.set`: replace in place if the key exists (JS keeps the original
position), otherwise append. -/
def setKey (k : String) (v : α) : List (String × α) → List (String × α)
  | [] => [(k, v)]
  | p :: ps => if p.1 = k then (k, v) :: ps else p :: setKey k v ps

/-- In-place mutation of the value stored under a key (e.g. `client.lastPing = ...`
on the record held in the map). -/
def updateKey (k : String) (f : α → α) : List (String × α) → List (String × α)
  | [] => []
  | p :: ps => if p.1 = k then (k, f p.2) :: ps else p :: updateKey k f ps

/-- `Set.add`: append if absent, keep position if already present. -/
def setAdd (i : String) (s : List String) : List String :=
  if i ∈ s then s else s ++ [i]

/-! #### Lemmas about the map model -/

theorem mapLookup_eq_none_nil (k : String) : mapLookup k ([] : List (String × α)) = none := rfl

theorem mapLookup_setKey_self (k : String) (v : α) (m : List (String × α)) :
    mapLookup k (setKey k v m) = some v := by
  induction m with
  | nil => simp [setKey, mapLookup]
  | cons p ps ih =>
    by_cases h : p.1 = k
    · simp [setKey, h, mapLookup]
    · simp [setKey, h, mapLookup, ih]

theorem mapLookup_setKey_ne (k k' : String) (v : α) (m : List (String × α)) (h : k ≠ k') :
    mapLookup k' (setKey k v m) = mapLookup k' m := by
  induction m with
  | nil => simp [setKey, mapLookup, h]
  | cons p ps ih =>
    by_cases hp : p.1 = k
    · subst hp; simp [setKey, mapLookup, h, ih]
    · simp [setKey, hp, mapLookup, ih]

theorem mapLookup_eraseKey_ne (k k' : String) (m : List (String × α)) (h : k ≠ k') :
    mapLookup k' (eraseKey k m) = mapLookup k' m := by
  induction m with
  | nil => simp [eraseKey]
  | cons p ps ih =>
    by_cases hp : p.1 = k
    · subst hp; simp [eraseKey, mapLookup, h]
    · simp [eraseKey, hp, mapLookup, ih]

/-- Keys of an association list. -/
def keysOf (m : List (String × α)) : List String := m.map (·.1)

theorem keysOf_cons (p : String × α) (ps : List (String × α)) :
    keysOf (p :: ps) = p.1 :: keysOf ps := rfl

theorem mem_keysOf_of_mem {k : String} {v : α} {m : List (String × α)}
    (h : (k, v) ∈ m) : k ∈ keysOf m :=
  List.mem_map.mpr ⟨(k, v), h, rfl⟩

theorem mapLookup_eq_none_of_not_mem_keys {k : String} {m : List (String × α)}
    (h : k ∉ keysOf m) : mapLookup k m = none := by
  induction m with
  | nil => rfl
  | cons p ps ih =>
    rw [keysOf_cons, List.mem_cons] at h
    push_neg at h
    have h1 : p.1 ≠ k := fun hh => h.1 hh.symm
    simp [mapLookup, h1, ih h.2]

theorem mem_keys_of_mapLookup_isSome {k : String} {m : List (String × α)}
    (h : (mapLookup k m).isSome) : k ∈ keysOf m := by
  by_contra hk
  rw [mapLookup_eq_none_of_not_mem_keys hk] at h
  simp at h

theorem mapLookup_eraseKey_self (k : String) (m : List (String × α))
    (hnd : (keysOf m).Nodup) : mapLookup k (eraseKey k m) = none := by
  induction m with
  | nil => rfl
  | cons p ps ih =>
    rw [keysOf_cons, List.nodup_cons] at hnd
    by_cases hp : p.1 = k
    · subst hp
      simp only [eraseKey, if_pos rfl]
      exact mapLookup_eq_none_of_not_mem_keys hnd.1
    · simp [eraseKey, hp, mapLookup, ih hnd.2]

theorem keysOf_eraseKey_sublist (k : String) (m : List (String × α)) :
    (keysOf (eraseKey k m)).Sublist (keysOf m) := by
  induction m with
  | nil => simp [eraseKey, keysOf]
  | cons p ps ih =>
    by_cases hp : p.1 = k
    · simpa [eraseKey, hp, keysOf] using List.sublist_cons_self _ _
    · simpa [eraseKey, hp, keysOf] using ih.cons₂ p.1

theorem keysOf_eraseKey_nodup {k : String} {m : List (String × α)}
    (h : (keysOf m).Nodup) : (keysOf (eraseKey k m)).Nodup :=
  (keysOf_eraseKey_sublist k m).nodup h

theorem not_mem_keysOf_eraseKey {k : String} {m : List (String × α)}
    (hnd : (keysOf m).Nodup) : k ∉ keysOf (eraseKey k m) := by
  induction m with
  | nil => simp [eraseKey, keysOf]
  | cons q qs ih =>
    rw [keysOf_cons, List.nodup_cons] at hnd
    by_cases hq : q.1 = k
    · subst hq
      simpa [eraseKey] using hnd.1
    · simp only [eraseKey, if_neg hq, keysOf_cons, List.mem_cons]
      push_neg
      exact ⟨fun hh => hq hh.symm, ih hnd.2⟩

theorem keysOf_setKey_of_mem {k : String} {v : α} {m : List (String × α)}
    (h : k ∈ keysOf m) : keysOf (setKey k v m) = keysOf m := by
  induction m with
  | nil => simp [keysOf] at h
  | cons p ps ih =>
    by_cases hp : p.1 = k
    · simp [setKey, hp, keysOf]
    · rw [keysOf_cons, List.mem_cons] at h
      rcases h with h | h
      · exact absurd h.symm hp
      · simp only [setKey, if_neg hp, keysOf_cons, ih h]

theorem keysOf_setKey_of_not_mem {k : String} {v : α} {m : List (String × α)}
    (h : k ∉ keysOf m) : keysOf (setKey k v m) = keysOf m ++ [k] := by
  induction m with
  | nil => simp [setKey, keysOf]
  | cons p ps ih =>
    rw [keysOf_cons, List.mem_cons] at h
    push_neg at h
    have hp : p.1 ≠ k := fun hh => h.1 hh.symm
    simp only [setKey, if_neg hp, keysOf_cons, ih h.2, List.cons_append]

theorem keysOf_setKey_nodup {k : String} {v : α} {m : List (String × α)}
    (h : (keysOf m).Nodup) : (keysOf (setKey k v m)).Nodup := by
  by_cases hk : k ∈ keysOf m
  · rw [keysOf_setKey_of_mem hk]; exact h
  · rw [keysOf_setKey_of_not_mem hk]
    simpa [List.nodup_append] using ⟨h, hk⟩

theorem keysOf_updateKey (k : String) (f : α → α) (m : List (String × α)) :
    keysOf (updateKey k f m) = keysOf m := by
  induction m with
  | nil => rfl
  | cons p ps ih =>
    by_cases hp : p.1 = k
    · simp [updateKey, hp, keysOf]
    · simp [updateKey, hp, keysOf] at ih ⊢; exact ih

theorem mapLookup_updateKey_self (k : String) (f : α → α) (m : List (String × α)) :
    mapLookup k (updateKey k f m) = (mapLookup k m).map f := by
  induction m with
  | nil => rfl
  | cons p ps ih =>
    by_cases hp : p.1 = k
    · simp [updateKey, hp, mapLookup]
    · simp [updateKey, hp, mapLookup, ih]

theorem mapLookup_updateKey_ne (k k' : String) (f : α → α) (m : List (String × α))
    (h : k ≠ k') : mapLookup k' (updateKey k f m) = mapLookup k' m := by
  induction m with
  | nil => rfl
  | cons p ps ih =>
    by_cases hp : p.1 = k
    · subst hp; simp [updateKey, mapLookup, h, ih]
    · simp [updateKey, hp, mapLookup, ih]

theorem mem_of_mem_setKey {k : String} {v : α} {m : List (String × α)} {p : String × α}
    (h : p ∈ setKey k v m) : p = (k, v) ∨ p ∈ m := by
  induction m with
  | nil => simpa [setKey] using h
  | cons q qs ih =>
    by_cases hq : q.1 = k
    · simp [setKey, hq] at h
      rcases h with h | h
      · exact Or.inl h
      · exact Or.inr (List.mem_cons_of_mem _ h)
    · simp [setKey, hq] at h
      rcases h with h | h
      · exact Or.inr (by simp [h])
      · rcases ih h with h' | h'
        · exact Or.inl h'
        · exact Or.inr (List.mem_cons_of_mem _ h')

theorem mem_of_mem_eraseKey {k : String} {m : List (String × α)} {p : String × α}
    (h : p ∈ eraseKey k m) : p ∈ m := by
  induction m with
  | nil => simpa [eraseKey] using h
  | cons q qs ih =>
    by_cases hq : q.1 = k
    · simp [eraseKey, hq] at h
      exact List.mem_cons_of_mem _ h
    · simp [eraseKey, hq] at h
      rcases h with h | h
      · simp [h]
      · exact List.mem_cons_of_mem _ (ih h)

theorem mapLookup_eq_of_mem {k : String} {v : α} {m : List (String × α)}
    (hnd : (keysOf m).Nodup) (h : (k, v) ∈ m) : mapLookup k m = some v := by
  induction m with
  | nil => simp at h
  | cons p ps ih =>
    rw [keysOf_cons, List.nodup_cons] at hnd
    rcases List.mem_cons.mp h with h | h
    · simp [← h, mapLookup]
    · have hk : p.1 ≠ k := by
        intro hp
        exact hnd.1 (hp ▸ mem_keysOf_of_mem h)
      simp [mapLookup, hk, ih hnd.2 h]

theorem mem_of_mapLookup_eq_some {k : String} {v : α} {m : List (String × α)}
    (h : mapLookup k m = some v) : (k, v) ∈ m := by
  induction m with
  | nil => simp [mapLookup] at h
  | cons p ps ih =>
    by_cases hp : p.1 = k
    · simp [mapLookup, hp] at h
      subst hp
      simp [← h]
    · simp [mapLookup, hp] at h
      exact List.mem_cons_of_mem _ (ih h)

/-! ### The connection registry (`SSEManager`) -/

/-- The mutable state of `SSEManager`: the primary client map and the two
secondary indexes, together with the configuration values the registry logic
reads (`maxClientsPerUser`, `heartbeatInterval`). -/
structure Registry where
  clients : List (String × SSEClient)
  userClients : List (String × List String)
  sessionClients : List (String × List String)
  maxClientsPerUser : Nat
  heartbeatInterval : Int
deriving Repr, DecidableEq

/-- A fresh `SSEManager` (`clients`, `userClients`, `sessionClients` all empty). -/
def initRegistry (maxClientsPerUser : Nat) (heartbeatInterval : Int) : Registry :=
  { clients := [], userClients := [], sessionClients := []
    maxClientsPerUser := maxClientsPerUser, heartbeatInterval := heartbeatInterval }

/-- The index-side of `removeClient`: `set.delete(clientId)` on the set stored
under `key`, deleting the whole entry when the set becomes empty.  A missing
key is a no-op. -/
def removeFromIndex (idx : List (String × List String)) (key clientId : String) :
    List (String × List String) :=
  match mapLookup key idx with
  | none => idx
  | some s =>
    let s' := s.filter (· ≠ clientId)
    if s' = [] then eraseKey key idx else setKey key s' idx

/-- The index-side of `addClient`: create the set when the key is absent, then
`set.add(clientId)`. -/
def addToIndex (idx : List (String × List String)) (key clientId : String) :
    List (String × List String) :=
  setKey key (setAdd clientId ((mapLookup key idx).getD [])) idx

/-- `SSEManager.removeClient`.  Looks up the client; on a miss it is a no-op.
Otherwise it deletes the client from the primary map and, when the recorded
`userId` / `sessionId` are truthy, from the corresponding index (dropping
empty sets).  The `client.isConnected = false` mutation only touches the record
that has just left the registry, so it does not appear in the state. -/
def removeClient (r : Registry) (clientId : String) : Registry :=
  match mapLookup clientId r.clients with
  | none => r
  | some client =>
    { r with
      clients := eraseKey clientId r.clients
      userClients :=
        if truthyStr client.userId then
          removeFromIndex r.userClients (client.userId.getD "") clientId
        else r.userClients
      sessionClients :=
        if truthyStr client.sessionId then
          removeFromIndex r.sessionClients (client.sessionId.getD "") clientId
        else r.sessionClients }

/-- `SSEManager.addClient`.  Removes any existing client with the same id,
inserts into the primary map, inserts into the user index when `userId` is
truthy and evicts the oldest member of that user's set when the set exceeds
`maxClientsPerUser` — note the JS guard `if (oldestClientId)` skips the
eviction when the oldest id is the empty string — and finally inserts into the
session index when `sessionId` is truthy. -/
def addClient (r : Registry) (c : SSEClient) : Registry :=
  let r1 := removeClient r c.id
  let r2 := { r1 with clients := setKey c.id c r1.clients }
  let r3 :=
    if truthyStr c.userId then
      let u := c.userId.getD ""
      let r2a := { r2 with userClients := addToIndex r2.userClients u c.id }
      let userSet := (mapLookup u r2a.userClients).getD []
      if userSet.length > r.maxClientsPerUser then
        match userSet.head? with
        | some oldest => if oldest = "" then r2a else removeClient r2a oldest
        | none => r2a
      else r2a
    else r2
  if truthyStr c.sessionId then
    { r3 with sessionClients := addToIndex r3.sessionClients (c.sessionId.getD "") c.id }
  else r3

/-- Decimal digit characters. -/
def digitChar : Nat → Char
  | 0 => '0' | 1 => '1' | 2 => '2' | 3 => '3' | 4 => '4'
  | 5 => '5' | 6 => '6' | 7 => '7' | 8 => '8' | _ => '9'

/-- Decimal digits, most significant first; structural recursion on a fuel
bound so that concrete values reduce in the kernel. -/
def natToDigitsAux : Nat → Nat → List Char
  | 0, n => [digitChar n]
  | fuel + 1, n =>
    if n < 10 then [digitChar n]
    else natToDigitsAux fuel (n / 10) ++ [digitChar (n % 10)]

/-- Decimal digits of a natural number, most significant first. -/
def natToDigits (n : Nat) : List Char := natToDigitsAux n n

theorem natToDigitsAux_fuel (f1 f2 n : Nat) (h1 : n < f1 + 1) (h2 : n < f2 + 1) :
    natToDigitsAux f1 n = natToDigitsAux f2 n := by
  induction f1 using Nat.strong_induction_on generalizing f2 n with
  | _ f1 ih =>
    match f1, f2 with
    | 0, 0 => rfl
    | 0, g + 1 =>
      have : n < 10 := by omega
      simp [natToDigitsAux, this]
    | g + 1, 0 =>
      have : n < 10 := by omega
      simp [natToDigitsAux, this]
    | g + 1, g' + 1 =>
      by_cases h : n < 10
      · simp [natToDigitsAux, h]
      · have hd : n / 10 < n := Nat.div_lt_self (by omega) (by omega)
        simp only [natToDigitsAux, if_neg h]
        rw [ih g (by omega) g' (n / 10) (by omega) (by omega)]

/-- The defining recurrence of `natToDigits`. -/
theorem natToDigits_eq (n : Nat) :
    natToDigits n = if n < 10 then [digitChar n]
      else natToDigits (n / 10) ++ [digitChar (n % 10)] := by
  by_cases h : n < 10
  · match n, h with
    | 0, _ => simp [natToDigits, natToDigitsAux, h]
    | m + 1, h => simp [natToDigits, natToDigitsAux, h]
  · have hd : n / 10 < n := Nat.div_lt_self (by omega) (by omega)
    match n, h, hd with
    | m + 1, h, hd =>
      simp only [natToDigits, natToDigitsAux, if_neg h]
      rw [natToDigitsAux_fuel m ((m + 1) / 10) ((m + 1) / 10) (by omega) (by omega)]

/-- Decimal rendering of an integer, as JS template interpolation
(`${event.retry}`) renders a number. -/
def intToDecimal (n : Int) : String :=
  if n < 0 then ⟨'-' :: natToDigits (-n).toNat⟩ else ⟨natToDigits n.toNat⟩

/-- `SSEManager.formatSSEEvent`: the SSE wire format.  Every `if` mirrors a JS
truthiness test, so empty strings and a zero `retry` are skipped. -/
def formatSSEEvent (e : SSEEvent) : String :=
  (if truthyStr e.id then "id: " ++ e.id.getD "" ++ "\n" else "")
    ++ (if e.event ≠ "" then "event: " ++ e.event ++ "\n" else "")
    ++ (if e.data ≠ "" then "data: " ++ e.data ++ "\n" else "")
    ++ (if truthyNum e.retry then "retry: " ++ intToDecimal (e.retry.getD 0) ++ "\n" else "")
    ++ "\n"

/-- `SSEManager.sendToClient`.  Returns the new state, the boolean result, and
the trace of `controller.enqueue` calls (client id, payload).  A missing or
not-connected client yields `false` with no write; a failing sink yields
`false` and removes the client; a successful write records the payload and
updates `lastPing`. -/
def sendToClient (r : Registry) (clientId : String) (e : SSEEvent) (now : Int) :
    Registry × Bool × List (String × String) :=
  match mapLookup clientId r.clients with
  | none => (r, false, [])
  | some client =>
    if client.isConnected = false then (r, false, [])
    else
      let eventData := formatSSEEvent e
      let record := fun (c : SSEClient) =>
        { c with written := c.written ++ [eventData], lastPing := now }
      if client.writeOk then
        ({ r with clients := updateKey clientId record r.clients },
          true, [(clientId, eventData)])
      else
        (removeClient r clientId, false, [(clientId, eventData)])

/-- The fan-out loop shared by `sendToUser` / `sendToSession` / `broadcast`:
send to each id of the snapshot in order, collecting the ids whose send
returned `false` (the `failedClients` array) and the concatenated write trace.
Iterating the live JS `Set`/`Map` is equivalent to iterating a snapshot because
the only mutation a step can perform is removing the very id being visited. -/
def sendLoop (r : Registry) (ids : List String) (e : SSEEvent) (now : Int) :
    Registry × List String × List (String × String) :=
  match ids with
  | [] => (r, [], [])
  | i :: rest =>
    let res := sendToClient r i e now
    let next := sendLoop res.1 rest e now
    (next.1, (if res.2.1 then next.2.1 else i :: next.2.1), res.2.2 ++ next.2.2)

/-- `SSEManager.sendToUser`: fan out to the user's set, then reap the failed
clients (`failedClients.forEach(removeClient)`). -/
def sendToUser (r : Registry) (userId : String) (e : SSEEvent) (now : Int) :
    Registry × List (String × String) :=
  match mapLookup userId r.userClients with
  | none => (r, [])
  | some userSet =>
    let res := sendLoop r userSet e now
    (res.2.1.foldl removeClient res.1, res.2.2)

/-- `SSEManager.sendToSession`: same shape as `sendToUser` over the session index. -/
def sendToSession (r : Registry) (sessionId : String) (e : SSEEvent) (now : Int) :
    Registry × List (String × String) :=
  match mapLookup sessionId r.sessionClients with
  | none => (r, [])
  | some sessionSet =>
    let res := sendLoop r sessionSet e now
    (res.2.1.foldl removeClient res.1, res.2.2)

/-- `SSEManager.broadcast`: fan out over the whole primary map, skipping the
excluded ids, then reap the failed clients. -/
def broadcast (r : Registry) (e : SSEEvent) (excludeClientIds : List String) (now : Int) :
    Registry × List (String × String) :=
  let ids := (keysOf r.clients).filter (fun i => ¬ i ∈ excludeClientIds)
  let res := sendLoop r ids e now
  (res.2.1.foldl removeClient res.1, res.2.2)

/-- `getClientCount`. -/
def getClientCount (r : Registry) : Nat := r.clients.length

/-- `getClientCountForUser`. -/
def getClientCountForUser (r : Registry) (userId : String) : Nat :=
  ((mapLookup userId r.userClients).map (·.length)).getD 0

/-- `getUserClients`. -/
def getUserClients (r : Registry) (userId : String) : List String :=
  (mapLookup userId r.userClients).getD []

/-- The payload of a heartbeat event: `JSON.stringify({ timestamp: Date.now() })`. -/
def heartbeatData (now : Int) : String :=
  "\x7b\"timestamp\":" ++ toString now ++ "\x7d"

/-- `SSEManager.pingClient`: send a reserved heartbeat event. -/
def pingClient (r : Registry) (clientId : String) (now : Int) :
    Registry × Bool × List (String × String) :=
  sendToClient r clientId { event := "heartbeat", data := heartbeatData now } now

/-- `SSEManager.cleanup`: collect the clients whose `lastPing` is older than
`heartbeatInterval * 2`, then remove them. -/
def cleanup (r : Registry) (now : Int) : Registry :=
  let disconnectedClients :=
    keysOf (r.clients.filter (fun p => now - p.2.lastPing > r.heartbeatInterval * 2))
  disconnectedClients.foldl removeClient r

/-- `SSEManager.destroy`: stop the timers, close every sink, clear all three
maps.  Only the map-clearing is registry state. -/
def destroy (r : Registry) : Registry :=
  { r with clients := [], userClients := [], sessionClients := [] }

/-- One public registry operation, for stating trace properties. -/
inductive Op where
  | add (c : SSEClient)
  | remove (id : String)
  | sendClient (id : String) (e : SSEEvent) (now : Int)
  | sendUser (u : String) (e : SSEEvent) (now : Int)
  | sendSession (s : String) (e : SSEEvent) (now : Int)
  | bcast (e : SSEEvent) (excl : List String) (now : Int)
  | ping (id : String) (now : Int)
  | cleanup (now : Int)
  | destroy
deriving Repr, DecidableEq

/-- Apply one public operation to the registry state. -/
def applyOp (r : Registry) : Op → Registry
  | .add c => addClient r c
  | .remove i => removeClient r i
  | .sendClient i e now => (sendToClient r i e now).1
  | .sendUser u e now => (sendToUser r u e now).1
  | .sendSession s e now => (sendToSession r s e now).1
  | .bcast e excl now => (broadcast r e excl now).1
  | .ping i now => (pingClient r i now).1
  | .cleanup now => cleanup r now
  | .destroy => destroy r

/-! ### Client-side parsing of the wire format

Modelled from the spec: the repository's client side consumes the stream with
the browser's native `EventSource`, so there is no in-repo parser; §6 of the
spec fixes the format (fields in the order `id`, `event`, `data`, `retry`, each
as one `name: value` line, terminated by a blank line, absent optional fields
skipped entirely). -/

/-- The fields recovered by parsing one wire-format message. -/
structure ParsedSSE where
  id : Option String := none
  event : Option String := none
  data : Option String := none
  retry : Option Int := none
deriving Repr, DecidableEq

/-- Split a character stream at every newline (the terminating `'\n'` of a last
line yields a trailing empty piece). -/
def splitNl : List Char → List (List Char)
  | [] => [[]]
  | c :: cs =>
    if c = '\n' then [] :: splitNl cs
    else
      match splitNl cs with
      | [] => [[c]]
      | l :: ls => (c :: l) :: ls

/-- Value of a decimal digit character. -/
def digitVal? (c : Char) : Option Nat :=
  if '0'.toNat ≤ c.toNat ∧ c.toNat ≤ '9'.toNat then some (c.toNat - '0'.toNat) else none

/-- Accumulating decimal parse of a digit string. -/
def parseNatFrom (acc : Nat) : List Char → Option Nat
  | [] => some acc
  | c :: cs =>
    match digitVal? c with
    | some d => parseNatFrom (acc * 10 + d) cs
    | none => none

/-- Parse an optionally-signed decimal integer. -/
def parseInt : List Char → Option Int
  | [] => none
  | c :: cs =>
    if c = '-' then
      if cs = [] then none else (parseNatFrom 0 cs).map (fun m => -(m : Int))
    else (parseNatFrom 0 (c :: cs)).map (fun m => (m : Int))

/-- Strip a literal field prefix from a line, if present. -/
def stripPre (pre l : List Char) : Option (List Char) :=
  if l.take pre.length = pre then some (l.drop pre.length) else none

/-- Consume one optional field line with the given prefix: when the next line
carries the prefix, return its value and drop the line; otherwise leave the
lines untouched (the optional field was skipped). -/
def fieldLine (pre : List Char) (ls : List (List Char)) :
    Option (List Char) × List (List Char) :=
  match ls with
  | [] => (none, [])
  | l :: rest =>
    match stripPre pre l with
    | some v => (some v, rest)
    | none => (none, l :: rest)

/-- Modelled from the spec (§6 wire format): parse one delivered message —
fields in the order `id`, `event`, `data`, `retry`, each as `name: value`
followed by a newline, optional fields possibly absent, then the mandatory
blank-line terminator and nothing after it. -/
def parseSSEEvent (s : String) : Option ParsedSSE :=
  let pId := fieldLine ("id: ".data) (splitNl s.data)
  let pEv := fieldLine ("event: ".data) pId.2
  let pDa := fieldLine ("data: ".data) pEv.2
  let pRe := fieldLine ("retry: ".data) pDa.2
  if pRe.2 = [[], []] then
    let base : ParsedSSE :=
      { id := pId.1.map (fun l => (⟨l⟩ : String))
        event := pEv.1.map (fun l => (⟨l⟩ : String))
        data := pDa.1.map (fun l => (⟨l⟩ : String)) }
    match pRe.1 with
    | none => some base
    | some rv => (parseInt rv).map (fun n => { base with retry := some n })
  else none

/-! #### Round-trip lemmas for the wire format -/

theorem digitVal?_digitChar {d : Nat} (h : d < 10) : digitVal? (digitChar d) = some d := by
  interval_cases d <;> rfl

theorem mem_natToDigits {n : Nat} {c : Char} (hc : c ∈ natToDigits n) :
    ∃ d, d < 10 ∧ c = digitChar d := by
  induction n using Nat.strong_induction_on with
  | _ n ih =>
    rw [natToDigits_eq] at hc
    by_cases h : n < 10
    · rw [if_pos h] at hc
      simp at hc
      exact ⟨n, h, hc⟩
    · rw [if_neg h] at hc
      rcases List.mem_append.mp hc with hc | hc
      · exact ih _ (Nat.div_lt_self (by omega) (by omega)) hc
      · simp at hc
        exact ⟨n % 10, Nat.mod_lt _ (by omega), hc⟩

theorem nl_not_mem_natToDigits (n : Nat) : '\n' ∉ natToDigits n := by
  intro hc
  obtain ⟨d, hd, he⟩ := mem_natToDigits hc
  interval_cases d <;> revert he <;> decide

theorem dash_not_mem_natToDigits (n : Nat) : '-' ∉ natToDigits n := by
  intro hc
  obtain ⟨d, hd, he⟩ := mem_natToDigits hc
  interval_cases d <;> revert he <;> decide

theorem natToDigits_ne_nil (n : Nat) : natToDigits n ≠ [] := by
  rw [natToDigits_eq]
  by_cases h : n < 10 <;> simp [h]

theorem parseNatFrom_append (acc : Nat) (xs ys : List Char) :
    parseNatFrom acc (xs ++ ys) =
      match parseNatFrom acc xs with
      | some a => parseNatFrom a ys
      | none => none := by
  induction xs generalizing acc with
  | nil => simp [parseNatFrom]
  | cons c cs ih =>
    simp only [List.cons_append, parseNatFrom]
    cases digitVal? c with
    | none => rfl
    | some d => simp [ih]

theorem parseNatFrom_natToDigits (n : Nat) : ∀ acc,
    parseNatFrom acc (natToDigits n) = some (acc * 10 ^ (natToDigits n).length + n) := by
  induction n using Nat.strong_induction_on with
  | _ n ih =>
    intro acc
    rw [natToDigits_eq]
    by_cases h : n < 10
    · simp only [if_pos h, parseNatFrom, digitVal?_digitChar h, List.length_cons,
        List.length_nil, pow_one, Nat.zero_add, pow_succ, pow_zero, one_mul]
    · have hd : n / 10 < n := Nat.div_lt_self (by omega) (by omega)
      have hm : n % 10 < 10 := Nat.mod_lt _ (by omega)
      simp only [if_neg h, parseNatFrom_append, ih _ hd]
      simp only [parseNatFrom, digitVal?_digitChar hm, List.length_append,
        List.length_cons, List.length_nil]
      congr 1
      set k := (natToDigits (n / 10)).length
      have hdm := Nat.div_add_mod n 10
      have hstep : (acc * 10 ^ k + n / 10) * 10 + n % 10
          = acc * 10 ^ (k + (0 + 1)) + (n / 10 * 10 + n % 10) := by ring
      rw [hstep]
      omega

theorem parseInt_intToDecimal (n : Int) : parseInt (intToDecimal n).data = some n := by
  by_cases h : n < 0
  · have hne := natToDigits_ne_nil (-n).toNat
    simp only [intToDecimal, if_pos h]
    show parseInt ('-' :: natToDigits (-n).toNat) = some n
    simp only [parseInt, if_pos rfl, if_neg hne]
    rw [parseNatFrom_natToDigits _ 0]
    have hcast : (((-n).toNat : Int)) = -n := Int.toNat_of_nonneg (by omega)
    simp [hcast]
  · cases hl : natToDigits n.toNat with
    | nil => exact absurd hl (natToDigits_ne_nil _)
    | cons c cs =>
      have hdash : c ≠ '-' := by
        intro hc
        exact dash_not_mem_natToDigits n.toNat (by rw [hl, hc]; exact List.mem_cons_self _ _)
      simp only [intToDecimal, if_neg h]
      show parseInt (natToDigits n.toNat) = some n
      rw [hl]
      simp only [parseInt, if_neg hdash, ← hl]
      rw [parseNatFrom_natToDigits _ 0]
      have hcast : ((n.toNat : Int)) = n := Int.toNat_of_nonneg (by omega)
      simp [hcast]

theorem splitNl_append (a rest : List Char) (h : '\n' ∉ a) :
    splitNl (a ++ '\n' :: rest) = a :: splitNl rest := by
  induction a with
  | nil => simp [splitNl]
  | cons c a' ih =>
    rw [List.mem_cons] at h
    push_neg at h
    have hc : c ≠ '\n' := fun hh => h.1 hh.symm
    simp only [List.cons_append, splitNl, if_neg hc, List.append_eq]
    rw [ih h.2]

theorem stripPre_pre_append (pre v : List Char) : stripPre pre (pre ++ v) = some v := by
  unfold stripPre
  rw [if_pos (List.take_left pre v), List.drop_left]

theorem stripPre_cons_ne {p c : Char} (pr l : List Char) (h : c ≠ p) :
    stripPre (p :: pr) (c :: l) = none := by
  unfold stripPre
  rw [if_neg]
  intro hh
  rw [List.length_cons, List.take_succ_cons] at hh
  exact h (by injection hh)

theorem stripPre_cons_nil (p : Char) (pr : List Char) :
    stripPre (p :: pr) [] = none := by
  unfold stripPre
  rw [if_neg]
  simp

theorem fieldLine_hit (pre v : List Char) (rest : List (List Char)) :
    fieldLine pre ((pre ++ v) :: rest) = (some v, rest) := by
  simp [fieldLine, stripPre_pre_append]

theorem fieldLine_miss {pre l : List Char} (h : stripPre pre l = none)
    (rest : List (List Char)) : fieldLine pre (l :: rest) = (none, l :: rest) := by
  simp [fieldLine, h]

theorem splitNl_append2 (a b rest : List Char) (ha : '\n' ∉ a) (hb : '\n' ∉ b) :
    splitNl (a ++ (b ++ ('\n' :: rest))) = (a ++ b) :: splitNl rest := by
  rw [← List.append_assoc]
  exact splitNl_append _ _ (by
    rw [List.mem_append]
    push_neg
    exact ⟨ha, hb⟩)

theorem fieldLine_id_ev (l : List Char) (rest : List (List Char)) :
    fieldLine ("id: ".data) (("event: ".data ++ l) :: rest)
      = (none, ("event: ".data ++ l) :: rest) :=
  fieldLine_miss
    (show stripPre ('i' :: "d: ".data) ('e' :: ("vent: ".data ++ l)) = none from
      stripPre_cons_ne _ _ (by decide)) rest

theorem fieldLine_retry_nil (rest : List (List Char)) :
    fieldLine ("retry: ".data) ([] :: rest) = (none, [] :: rest) :=
  fieldLine_miss
    (show stripPre ('r' :: "etry: ".data) [] = none from stripPre_cons_nil _ _) rest

theorem nl_not_mem_intToDecimal (n : Int) : '\n' ∉ (intToDecimal n).data := by
  unfold intToDecimal
  by_cases h : n < 0
  · rw [if_pos h]
    intro hc
    rcases List.mem_cons.mp hc with hc | hc
    · exact absurd hc (by decide)
    · exact nl_not_mem_natToDigits _ hc
  · rw [if_neg h]
    exact nl_not_mem_natToDigits _


/-! ### Well-formedness of the registry state -/

/-- Client id `i` belongs to the set stored under `key` in an index. -/
def inIndex (idx : List (String × List String)) (key i : String) : Prop :=
  ∃ s, mapLookup key idx = some s ∧ i ∈ s

/-- Structural soundness of an index: distinct keys, no empty set, no
duplicate inside a set (JS `Set`s cannot hold duplicates). -/
def indexOk (idx : List (String × List String)) : Prop :=
  (keysOf idx).Nodup ∧ ∀ p ∈ idx, p.2 ≠ [] ∧ p.2.Nodup

/-- The index over field `fld` is exactly the inverse of the primary map,
restricted to truthy field values. -/
def linked (clients : List (String × SSEClient)) (idx : List (String × List String))
    (fld : SSEClient → Option String) : Prop :=
  ∀ u i, inIndex idx u i ↔ ∃ c, mapLookup i clients = some c ∧ fld c = some u ∧ u ≠ ""

/-- Same as `linked` except that the id `x` is allowed to be unindexed (the
intermediate states of `addClient` before the session insertion). -/
def linkedExcept (clients : List (String × SSEClient)) (idx : List (String × List String))
    (fld : SSEClient → Option String) (x : String) : Prop :=
  ∀ u i, inIndex idx u i ↔
    (i ≠ x ∧ ∃ c, mapLookup i clients = some c ∧ fld c = some u ∧ u ≠ "")

/-- The inductive well-formedness invariant of the registry: reachable states
satisfy it (proved below), and it pins the two indexes to the primary map. -/
def wellFormed (r : Registry) : Prop :=
  (keysOf r.clients).Nodup ∧ indexOk r.userClients ∧ indexOk r.sessionClients ∧
    linked r.clients r.userClients (fun c => c.userId) ∧
    linked r.clients r.sessionClients (fun c => c.sessionId)

/-! #### Index-level lemmas -/

theorem mem_setAdd {j i : String} {s : List String} :
    j ∈ setAdd i s ↔ j ∈ s ∨ j = i := by
  unfold setAdd
  by_cases h : i ∈ s
  · rw [if_pos h]
    constructor
    · exact Or.inl
    · rintro (hj | rfl)
      · exact hj
      · exact h
  · rw [if_neg h]
    simp

theorem setAdd_nodup {i : String} {s : List String} (h : s.Nodup) :
    (setAdd i s).Nodup := by
  unfold setAdd
  by_cases hi : i ∈ s
  · rw [if_pos hi]; exact h
  · rw [if_neg hi]
    simpa [List.nodup_append] using ⟨h, hi⟩

theorem setAdd_ne_nil (i : String) (s : List String) : setAdd i s ≠ [] := by
  unfold setAdd
  by_cases hi : i ∈ s
  · rw [if_pos hi]
    intro hs
    rw [hs] at hi
    exact absurd hi (List.not_mem_nil i)
  · rw [if_neg hi]
    simp

theorem mem_filter_ne {j i : String} {s : List String} :
    j ∈ s.filter (· ≠ i) ↔ j ∈ s ∧ j ≠ i := by
  simp [List.mem_filter]

theorem setKey_self_of_lookup {key : String} {s : α} {idx : List (String × α)}
    (h : mapLookup key idx = some s) : setKey key s idx = idx := by
  induction idx with
  | nil => simp [mapLookup] at h
  | cons p ps ih =>
    by_cases hp : p.1 = key
    · rw [mapLookup, if_pos hp] at h
      injection h with h
      subst h
      subst hp
      show (if p.1 = p.1 then (p.1, p.2) :: ps else p :: setKey p.1 p.2 ps) = p :: ps
      rw [if_pos rfl]
    · rw [mapLookup, if_neg hp] at h
      simp only [setKey, if_neg hp, ih h]

theorem removeFromIndex_of_none {idx : List (String × List String)} {key : String} (i : String)
    (h : mapLookup key idx = none) : removeFromIndex idx key i = idx := by
  unfold removeFromIndex
  rw [h]

theorem removeFromIndex_of_some_nil {idx : List (String × List String)} {key i : String}
    {s : List String} (h : mapLookup key idx = some s) (he : s.filter (· ≠ i) = []) :
    removeFromIndex idx key i = eraseKey key idx := by
  unfold removeFromIndex
  rw [h]
  show (if s.filter (· ≠ i) = [] then eraseKey key idx
    else setKey key (s.filter (· ≠ i)) idx) = eraseKey key idx
  rw [if_pos he]

theorem removeFromIndex_of_some_cons {idx : List (String × List String)} {key i : String}
    {s : List String} (h : mapLookup key idx = some s) (he : s.filter (· ≠ i) ≠ []) :
    removeFromIndex idx key i = setKey key (s.filter (· ≠ i)) idx := by
  unfold removeFromIndex
  rw [h]
  show (if s.filter (· ≠ i) = [] then eraseKey key idx
    else setKey key (s.filter (· ≠ i)) idx) = setKey key (s.filter (· ≠ i)) idx
  rw [if_neg he]

theorem indexOk_removeFromIndex {idx : List (String × List String)} (key i : String)
    (h : indexOk idx) : indexOk (removeFromIndex idx key i) := by
  obtain ⟨hk, hs⟩ := h
  cases hl : mapLookup key idx with
  | none => rw [removeFromIndex_of_none i hl]; exact ⟨hk, hs⟩
  | some s =>
    by_cases he : s.filter (· ≠ i) = []
    · rw [removeFromIndex_of_some_nil hl he]
      exact ⟨keysOf_eraseKey_nodup hk, fun p hp => hs p (mem_of_mem_eraseKey hp)⟩
    · rw [removeFromIndex_of_some_cons hl he]
      refine ⟨?_, ?_⟩
      · rw [keysOf_setKey_of_mem (mem_keys_of_mapLookup_isSome (by rw [hl]; rfl))]
        exact hk
      · intro p hp
        rcases mem_of_mem_setKey hp with hp | hp
        · subst hp
          exact ⟨he, List.Nodup.filter _ (hs (key, s) (mem_of_mapLookup_eq_some hl)).2⟩
        · exact hs p hp

theorem inIndex_removeFromIndex {idx : List (String × List String)} {key i u j : String}
    (hk : (keysOf idx).Nodup) :
    inIndex (removeFromIndex idx key i) u j ↔
      inIndex idx u j ∧ ¬(u = key ∧ j = i) := by
  cases hl : mapLookup key idx with
  | none =>
    rw [removeFromIndex_of_none i hl]
    constructor
    · intro h
      refine ⟨h, ?_⟩
      rintro ⟨rfl, rfl⟩
      obtain ⟨s, hsl, _⟩ := h
      rw [hl] at hsl
      cases hsl
    · exact fun h => h.1
  | some s =>
    by_cases he : s.filter (· ≠ i) = []
    · rw [removeFromIndex_of_some_nil hl he]
      by_cases hu : u = key
      · subst hu
        constructor
        · rintro ⟨s', hs', hj⟩
          rw [mapLookup_eraseKey_self _ _ hk] at hs'
          cases hs'
        · rintro ⟨⟨s', hs', hj⟩, hne⟩
          rw [hl] at hs'
          injection hs' with hs'
          subst hs'
          have : j ∈ s.filter (· ≠ i) := mem_filter_ne.mpr ⟨hj, fun hji => hne ⟨rfl, hji⟩⟩
          rw [he] at this
          exact absurd this (List.not_mem_nil j)
      · unfold inIndex
        rw [mapLookup_eraseKey_ne _ _ _ (fun hh => hu hh.symm)]
        exact ⟨fun h => ⟨h, fun hc => hu hc.1⟩, fun h => h.1⟩
    · rw [removeFromIndex_of_some_cons hl he]
      by_cases hu : u = key
      · subst hu
        unfold inIndex
        rw [mapLookup_setKey_self]
        constructor
        · rintro ⟨s', hs', hj⟩
          injection hs' with hs'
          subst hs'
          obtain ⟨hjs, hji⟩ := mem_filter_ne.mp hj
          exact ⟨⟨s, hl, hjs⟩, fun hc => hji hc.2⟩
        · rintro ⟨⟨s', hs', hj⟩, hne⟩
          rw [hl] at hs'
          injection hs' with hs'
          subst hs'
          exact ⟨_, rfl, mem_filter_ne.mpr ⟨hj, fun hji => hne ⟨rfl, hji⟩⟩⟩
      · unfold inIndex
        rw [mapLookup_setKey_ne _ _ _ _ (fun hh => hu hh.symm)]
        exact ⟨fun h => ⟨h, fun hc => hu hc.1⟩, fun h => h.1⟩

theorem indexOk_addToIndex {idx : List (String × List String)} (key i : String)
    (h : indexOk idx) : indexOk (addToIndex idx key i) := by
  obtain ⟨hk, hs⟩ := h
  unfold addToIndex
  refine ⟨?_, ?_⟩
  · exact keysOf_setKey_nodup hk
  · intro p hp
    rcases mem_of_mem_setKey hp with hp | hp
    · subst hp
      refine ⟨setAdd_ne_nil _ _, setAdd_nodup ?_⟩
      cases hl : mapLookup key idx with
      | none => exact List.nodup_nil
      | some s => exact (hs (key, s) (mem_of_mapLookup_eq_some hl)).2
    · exact hs p hp

theorem inIndex_addToIndex {idx : List (String × List String)} {key i u j : String} :
    inIndex (addToIndex idx key i) u j ↔ inIndex idx u j ∨ (u = key ∧ j = i) := by
  unfold addToIndex
  by_cases hu : u = key
  · subst hu
    unfold inIndex
    rw [mapLookup_setKey_self]
    constructor
    · rintro ⟨s', hs', hj⟩
      injection hs' with hs'
      subst hs'
      rcases mem_setAdd.mp hj with hj | hj
      · cases hl : mapLookup u idx with
        | none => rw [hl] at hj; exact absurd hj (List.not_mem_nil j)
        | some s => rw [hl] at hj; exact Or.inl ⟨s, rfl, hj⟩
      · exact Or.inr ⟨rfl, hj⟩
    · rintro (⟨s', hs', hj⟩ | ⟨-, rfl⟩)
      · rw [hs']
        exact ⟨_, rfl, mem_setAdd.mpr (Or.inl hj)⟩
      · exact ⟨_, rfl, mem_setAdd.mpr (Or.inr rfl)⟩
  · unfold inIndex
    rw [mapLookup_setKey_ne _ _ _ _ (fun hh => hu hh.symm)]
    exact ⟨fun h => Or.inl h, fun h => h.elim id (fun hc => absurd hc.1 hu)⟩

/-! #### Preservation of well-formedness -/

theorem removeClient_of_none {r : Registry} {i : String}
    (h : mapLookup i r.clients = none) : removeClient r i = r := by
  unfold removeClient
  rw [h]

theorem removeClient_of_some {r : Registry} {i : String} {c : SSEClient}
    (h : mapLookup i r.clients = some c) :
    removeClient r i =
      { r with
        clients := eraseKey i r.clients
        userClients :=
          if truthyStr c.userId then
            removeFromIndex r.userClients (c.userId.getD "") i
          else r.userClients
        sessionClients :=
          if truthyStr c.sessionId then
            removeFromIndex r.sessionClients (c.sessionId.getD "") i
          else r.sessionClients } := by
  unfold removeClient
  rw [h]

theorem removeClient_clients_lookup (r : Registry) (i j : String)
    (hnd : (keysOf r.clients).Nodup) :
    mapLookup j (removeClient r i).clients
      = if j = i then none else mapLookup j r.clients := by
  cases hc : mapLookup i r.clients with
  | none =>
    rw [removeClient_of_none hc]
    by_cases hj : j = i
    · subst hj; rw [if_pos rfl, hc]
    · rw [if_neg hj]
  | some c =>
    rw [removeClient_of_some hc]
    by_cases hj : j = i
    · subst hj
      rw [if_pos rfl]
      exact mapLookup_eraseKey_self _ _ hnd
    · rw [if_neg hj]
      exact mapLookup_eraseKey_ne _ _ _ (fun hh => hj hh.symm)

theorem removeClient_config (r : Registry) (i : String) :
    (removeClient r i).maxClientsPerUser = r.maxClientsPerUser ∧
    (removeClient r i).heartbeatInterval = r.heartbeatInterval := by
  cases hc : mapLookup i r.clients with
  | none => rw [removeClient_of_none hc]; exact ⟨rfl, rfl⟩
  | some c => rw [removeClient_of_some hc]; exact ⟨rfl, rfl⟩

/-- The effect of `removeClient` on one index, generically in the field. -/
theorem linked_erase {clients : List (String × SSEClient)}
    {idx : List (String × List String)} {fld : SSEClient → Option String}
    {i : String} {c : SSEClient}
    (hndc : (keysOf clients).Nodup) (hndi : (keysOf idx).Nodup)
    (hc : mapLookup i clients = some c) (hl : linked clients idx fld) :
    linked (eraseKey i clients)
      (if truthyStr (fld c) then removeFromIndex idx ((fld c).getD "") i else idx) fld := by
  have herase_i : mapLookup i (eraseKey i clients) = none :=
    mapLookup_eraseKey_self _ _ hndc
  have herase_ne : ∀ j : String, j ≠ i →
      mapLookup j (eraseKey i clients) = mapLookup j clients :=
    fun j hj => mapLookup_eraseKey_ne _ _ _ (fun hh => hj hh.symm)
  intro u j
  have hR_i : ¬ ∃ c', mapLookup i (eraseKey i clients) = some c' ∧
      fld c' = some u ∧ u ≠ "" := by
    rintro ⟨c', hc', -, -⟩
    rw [herase_i] at hc'
    cases hc'
  by_cases ht : truthyStr (fld c)
  · obtain ⟨u0, hu0, hu0ne⟩ : ∃ u0, fld c = some u0 ∧ u0 ≠ "" := by
      cases hf : fld c with
      | none => rw [hf] at ht; exact absurd ht (by simp [truthyStr])
      | some v =>
        rw [hf] at ht
        exact ⟨v, rfl, by simpa [truthyStr] using ht⟩
    rw [if_pos ht, hu0]
    show inIndex (removeFromIndex idx u0 i) u j ↔ _
    rw [inIndex_removeFromIndex hndi, hl u j]
    by_cases hj : j = i
    · subst hj
      constructor
      · rintro ⟨⟨c', hc', hf', hne⟩, hno⟩
        rw [hc] at hc'
        injection hc' with hc'
        subst hc'
        rw [hu0] at hf'
        injection hf' with hf'
        exact absurd ⟨hf'.symm, rfl⟩ hno
      · intro hr
        exact absurd hr hR_i
    · constructor
      · rintro ⟨⟨c', hc', hf', hne⟩, -⟩
        exact ⟨c', by rw [herase_ne j hj]; exact hc', hf', hne⟩
      · rintro ⟨c', hc', hf', hne⟩
        rw [herase_ne j hj] at hc'
        exact ⟨⟨c', hc', hf', hne⟩, fun hco => hj hco.2⟩
  · rw [if_neg ht]
    rw [hl u j]
    by_cases hj : j = i
    · subst hj
      constructor
      · rintro ⟨c', hc', hf', hne⟩
        rw [hc] at hc'
        injection hc' with hc'
        subst hc'
        rw [hf'] at ht
        have hu : u = "" := by simpa [truthyStr] using ht
        exact absurd hu hne
      · intro hr
        exact absurd hr hR_i
    · constructor
      · rintro ⟨c', hc', hf', hne⟩
        exact ⟨c', by rw [herase_ne j hj]; exact hc', hf', hne⟩
      · rintro ⟨c', hc', hf', hne⟩
        rw [herase_ne j hj] at hc'
        exact ⟨c', hc', hf', hne⟩

theorem wellFormed_removeClient (r : Registry) (i : String) (h : wellFormed r) :
    wellFormed (removeClient r i) := by
  obtain ⟨hnd, hiu, his, hlu, hls⟩ := h
  cases hc : mapLookup i r.clients with
  | none =>
    rw [removeClient_of_none hc]
    exact ⟨hnd, hiu, his, hlu, hls⟩
  | some c =>
    rw [removeClient_of_some hc]
    refine ⟨keysOf_eraseKey_nodup hnd, ?_, ?_, ?_, ?_⟩
    · by_cases ht : truthyStr c.userId
      · rw [if_pos ht]; exact indexOk_removeFromIndex _ _ hiu
      · rw [if_neg ht]; exact hiu
    · by_cases ht : truthyStr c.sessionId
      · rw [if_pos ht]; exact indexOk_removeFromIndex _ _ his
      · rw [if_neg ht]; exact his
    · exact linked_erase hnd hiu.1 hc hlu
    · exact linked_erase hnd his.1 hc hls

/-! #### `sendToClient` equations and preservation -/

theorem sendToClient_of_none {r : Registry} {i : String} (e : SSEEvent) (now : Int)
    (h : mapLookup i r.clients = none) : sendToClient r i e now = (r, false, []) := by
  unfold sendToClient
  rw [h]

theorem sendToClient_of_disconnected {r : Registry} {i : String} {c : SSEClient}
    (e : SSEEvent) (now : Int)
    (h : mapLookup i r.clients = some c) (hd : c.isConnected = false) :
    sendToClient r i e now = (r, false, []) := by
  unfold sendToClient
  rw [h]
  show (if c.isConnected = false then _ else _) = _
  rw [if_pos hd]

/-- The record mutation performed by a successful send. -/
def recordWrite (e : SSEEvent) (now : Int) (c : SSEClient) : SSEClient :=
  { c with written := c.written ++ [formatSSEEvent e], lastPing := now }

theorem sendToClient_of_writeOk {r : Registry} {i : String} {c : SSEClient}
    (e : SSEEvent) (now : Int)
    (h : mapLookup i r.clients = some c) (hcon : c.isConnected = true)
    (hw : c.writeOk = true) :
    sendToClient r i e now =
      ({ r with clients := updateKey i (recordWrite e now) r.clients },
        true, [(i, formatSSEEvent e)]) := by
  unfold sendToClient
  rw [h]
  show (if c.isConnected = false then _ else _) = _
  rw [if_neg (by rw [hcon]; exact fun hh => Bool.noConfusion hh)]
  show (if c.writeOk then _ else _) = _
  rw [if_pos hw]
  rfl

theorem sendToClient_of_writeFail {r : Registry} {i : String} {c : SSEClient}
    (e : SSEEvent) (now : Int)
    (h : mapLookup i r.clients = some c) (hcon : c.isConnected = true)
    (hw : c.writeOk = false) :
    sendToClient r i e now = (removeClient r i, false, [(i, formatSSEEvent e)]) := by
  unfold sendToClient
  rw [h]
  show (if c.isConnected = false then _ else _) = _
  rw [if_neg (by rw [hcon]; exact fun hh => Bool.noConfusion hh)]
  show (if c.writeOk then _ else _) = _
  rw [hw]
  rfl

/-- Updating a record in place with a field-preserving function keeps `linked`. -/
theorem linked_update {clients : List (String × SSEClient)}
    {idx : List (String × List String)} {fld : SSEClient → Option String}
    (i : String) (f : SSEClient → SSEClient)
    (hf : ∀ c, fld (f c) = fld c) (hl : linked clients idx fld) :
    linked (updateKey i f clients) idx fld := by
  intro u j
  rw [hl u j]
  by_cases hj : j = i
  · subst hj
    rw [mapLookup_updateKey_self]
    cases hc : mapLookup j clients with
    | none => simp
    | some c =>
      simp only [Option.map_some']
      constructor
      · rintro ⟨c', hc', hfc, hne⟩
        injection hc' with hc'
        subst hc'
        exact ⟨f c, rfl, by rw [hf c]; exact hfc, hne⟩
      · rintro ⟨c', hc', hfc, hne⟩
        injection hc' with hc'
        subst hc'
        exact ⟨c, rfl, by rw [← hf c]; exact hfc, hne⟩
  · rw [mapLookup_updateKey_ne _ _ _ _ (fun hh => hj hh.symm)]

theorem wellFormed_sendToClient (r : Registry) (i : String) (e : SSEEvent) (now : Int)
    (h : wellFormed r) : wellFormed (sendToClient r i e now).1 := by
  cases hc : mapLookup i r.clients with
  | none => rw [sendToClient_of_none e now hc]; exact h
  | some c =>
    cases hcon : c.isConnected with
    | false => rw [sendToClient_of_disconnected e now hc hcon]; exact h
    | true =>
      cases hw : c.writeOk with
      | false =>
        rw [sendToClient_of_writeFail e now hc hcon hw]
        exact wellFormed_removeClient r i h
      | true =>
        rw [sendToClient_of_writeOk e now hc hcon hw]
        obtain ⟨hnd, hiu, his, hlu, hls⟩ := h
        refine ⟨?_, hiu, his, ?_, ?_⟩
        · rw [show keysOf (updateKey i (recordWrite e now) r.clients)
              = keysOf r.clients from keysOf_updateKey _ _ _]
          exact hnd
        · exact linked_update i _ (fun c => rfl) hlu
        · exact linked_update i _ (fun c => rfl) hls

theorem wellFormed_foldl_removeClient (ids : List String) :
    ∀ r : Registry, wellFormed r → wellFormed (ids.foldl removeClient r) := by
  induction ids with
  | nil => exact fun r h => h
  | cons i rest ih =>
    intro r h
    exact ih _ (wellFormed_removeClient r i h)

theorem wellFormed_sendLoop (ids : List String) (e : SSEEvent) (now : Int) :
    ∀ r : Registry, wellFormed r → wellFormed (sendLoop r ids e now).1 := by
  induction ids with
  | nil => exact fun r h => h
  | cons i rest ih =>
    intro r h
    show wellFormed (sendLoop (sendToClient r i e now).1 rest e now).1
    exact ih _ (wellFormed_sendToClient r i e now h)

theorem wellFormed_sendToUser (r : Registry) (u : String) (e : SSEEvent) (now : Int)
    (h : wellFormed r) : wellFormed (sendToUser r u e now).1 := by
  unfold sendToUser
  cases hl : mapLookup u r.userClients with
  | none => exact h
  | some s =>
    exact wellFormed_foldl_removeClient _ _ (wellFormed_sendLoop s e now r h)

theorem wellFormed_sendToSession (r : Registry) (sid : String) (e : SSEEvent) (now : Int)
    (h : wellFormed r) : wellFormed (sendToSession r sid e now).1 := by
  unfold sendToSession
  cases hl : mapLookup sid r.sessionClients with
  | none => exact h
  | some s =>
    exact wellFormed_foldl_removeClient _ _ (wellFormed_sendLoop s e now r h)

theorem wellFormed_broadcast (r : Registry) (e : SSEEvent) (excl : List String) (now : Int)
    (h : wellFormed r) : wellFormed (broadcast r e excl now).1 := by
  unfold broadcast
  exact wellFormed_foldl_removeClient _ _ (wellFormed_sendLoop _ e now r h)

theorem wellFormed_cleanup (r : Registry) (now : Int) (h : wellFormed r) :
    wellFormed (cleanup r now) := by
  unfold cleanup
  exact wellFormed_foldl_removeClient _ _ h

theorem wellFormed_destroy (r : Registry) : wellFormed (destroy r) := by
  unfold destroy
  refine ⟨List.nodup_nil, ⟨List.nodup_nil, by simp⟩, ⟨List.nodup_nil, by simp⟩, ?_, ?_⟩
  · intro u j
    constructor
    · rintro ⟨s, hs, -⟩
      cases hs
    · rintro ⟨c, hc, -, -⟩
      cases hc
  · intro u j
    constructor
    · rintro ⟨s, hs, -⟩
      cases hs
    · rintro ⟨c, hc, -, -⟩
      cases hc

/-! #### `addClient` preservation -/

theorem mapLookup_addToIndex_self (idx : List (String × List String)) (key i : String) :
    mapLookup key (addToIndex idx key i) = some (setAdd i ((mapLookup key idx).getD [])) := by
  unfold addToIndex
  exact mapLookup_setKey_self _ _ _

theorem linkedExcept_insert {clients : List (String × SSEClient)}
    {idx : List (String × List String)} {fld : SSEClient → Option String}
    {x : String} (c : SSEClient)
    (hx : mapLookup x clients = none) (hl : linked clients idx fld) :
    linkedExcept (setKey x c clients) idx fld x := by
  intro u j
  rw [hl u j]
  by_cases hj : j = x
  · subst hj
    constructor
    · rintro ⟨c', hc', -, -⟩
      rw [hx] at hc'
      cases hc'
    · rintro ⟨hjx, -⟩
      exact absurd rfl hjx
  · rw [mapLookup_setKey_ne _ _ _ _ (fun hh => hj hh.symm)]
    exact ⟨fun hp => ⟨hj, hp⟩, fun hp => hp.2⟩

theorem linked_insert_addToIndex {clients : List (String × SSEClient)}
    {idx : List (String × List String)} {fld : SSEClient → Option String}
    {x u : String} {c : SSEClient}
    (hx : mapLookup x clients = none) (hl : linked clients idx fld)
    (hfc : fld c = some u) (hu : u ≠ "") :
    linked (setKey x c clients) (addToIndex idx u x) fld := by
  intro u' j
  rw [inIndex_addToIndex, hl u' j]
  by_cases hj : j = x
  · subst hj
    rw [mapLookup_setKey_self]
    constructor
    · rintro (⟨c', hc', -, -⟩ | ⟨rfl, -⟩)
      · rw [hx] at hc'
        cases hc'
      · exact ⟨c, rfl, hfc, hu⟩
    · rintro ⟨c', hc', hf', hne⟩
      injection hc' with hc'
      subst hc'
      rw [hfc] at hf'
      injection hf' with hf'
      exact Or.inr ⟨hf'.symm, rfl⟩
  · rw [mapLookup_setKey_ne _ _ _ _ (fun hh => hj hh.symm)]
    constructor
    · rintro (hp | ⟨-, hjx⟩)
      · exact hp
      · exact absurd hjx hj
    · exact Or.inl

theorem linked_insert_skip {clients : List (String × SSEClient)}
    {idx : List (String × List String)} {fld : SSEClient → Option String}
    {x : String} {c : SSEClient}
    (hx : mapLookup x clients = none) (hl : linked clients idx fld)
    (ht : truthyStr (fld c) = false) :
    linked (setKey x c clients) idx fld := by
  intro u j
  rw [hl u j]
  by_cases hj : j = x
  · subst hj
    rw [mapLookup_setKey_self]
    constructor
    · rintro ⟨c', hc', -, -⟩
      rw [hx] at hc'
      cases hc'
    · rintro ⟨c', hc', hf', hne⟩
      injection hc' with hc'
      subst hc'
      rw [hf'] at ht
      have hu : u = "" := by simpa [truthyStr] using ht
      exact absurd hu hne
  · rw [mapLookup_setKey_ne _ _ _ _ (fun hh => hj hh.symm)]

theorem linked_of_linkedExcept_addToIndex {clients : List (String × SSEClient)}
    {idx : List (String × List String)} {fld : SSEClient → Option String}
    {x u : String} {c : SSEClient}
    (hle : linkedExcept clients idx fld x) (hx : mapLookup x clients = some c)
    (hfc : fld c = some u) (hu : u ≠ "") :
    linked clients (addToIndex idx u x) fld := by
  intro u' j
  rw [inIndex_addToIndex, hle u' j]
  by_cases hj : j = x
  · subst hj
    constructor
    · rintro (⟨hjx, -⟩ | ⟨rfl, -⟩)
      · exact absurd rfl hjx
      · exact ⟨c, hx, hfc, hu⟩
    · rintro ⟨c', hc', hf', hne⟩
      rw [hx] at hc'
      injection hc' with hc'
      subst hc'
      rw [hfc] at hf'
      injection hf' with hf'
      exact Or.inr ⟨hf'.symm, rfl⟩
  · constructor
    · rintro (⟨-, hp⟩ | ⟨-, hjx⟩)
      · exact hp
      · exact absurd hjx hj
    · intro hp
      exact Or.inl ⟨hj, hp⟩

theorem linked_of_linkedExcept_skip {clients : List (String × SSEClient)}
    {idx : List (String × List String)} {fld : SSEClient → Option String}
    {x : String} {c : SSEClient}
    (hle : linkedExcept clients idx fld x) (hx : mapLookup x clients = some c)
    (ht : truthyStr (fld c) = false) :
    linked clients idx fld := by
  intro u j
  rw [hle u j]
  by_cases hj : j = x
  · subst hj
    constructor
    · rintro ⟨hjx, -⟩
      exact absurd rfl hjx
    · rintro ⟨c', hc', hf', hne⟩
      rw [hx] at hc'
      injection hc' with hc'
      subst hc'
      rw [hf'] at ht
      have hu : u = "" := by simpa [truthyStr] using ht
      exact absurd hu hne
  · exact ⟨fun hp => hp.2, fun hp => ⟨hj, hp⟩⟩

theorem linkedExcept_erase {clients : List (String × SSEClient)}
    {idx : List (String × List String)} {fld : SSEClient → Option String}
    {x o : String} {co : SSEClient}
    (hndc : (keysOf clients).Nodup) (hndi : (keysOf idx).Nodup)
    (ho : mapLookup o clients = some co) (hox : o ≠ x)
    (hle : linkedExcept clients idx fld x) :
    linkedExcept (eraseKey o clients)
      (if truthyStr (fld co) then removeFromIndex idx ((fld co).getD "") o else idx)
      fld x := by
  have herase_o : mapLookup o (eraseKey o clients) = none :=
    mapLookup_eraseKey_self _ _ hndc
  have herase_ne : ∀ j : String, j ≠ o →
      mapLookup j (eraseKey o clients) = mapLookup j clients :=
    fun j hj => mapLookup_eraseKey_ne _ _ _ (fun hh => hj hh.symm)
  intro u j
  have hR_o : ¬ (o ≠ x ∧ ∃ c', mapLookup o (eraseKey o clients) = some c' ∧
      fld c' = some u ∧ u ≠ "") := by
    rintro ⟨-, c', hc', -, -⟩
    rw [herase_o] at hc'
    cases hc'
  by_cases ht : truthyStr (fld co)
  · obtain ⟨u0, hu0, hu0ne⟩ : ∃ u0, fld co = some u0 ∧ u0 ≠ "" := by
      cases hf : fld co with
      | none => rw [hf] at ht; exact absurd ht (by simp [truthyStr])
      | some v =>
        rw [hf] at ht
        exact ⟨v, rfl, by simpa [truthyStr] using ht⟩
    rw [if_pos ht, hu0]
    show inIndex (removeFromIndex idx u0 o) u j ↔ _
    rw [inIndex_removeFromIndex hndi, hle u j]
    by_cases hj : j = o
    · subst hj
      constructor
      · rintro ⟨⟨-, c', hc', hf', hne⟩, hno⟩
        rw [ho] at hc'
        injection hc' with hc'
        subst hc'
        rw [hu0] at hf'
        injection hf' with hf'
        exact absurd ⟨hf'.symm, rfl⟩ hno
      · intro hr
        exact absurd hr hR_o
    · constructor
      · rintro ⟨⟨hjx, c', hc', hf', hne⟩, -⟩
        exact ⟨hjx, c', by rw [herase_ne j hj]; exact hc', hf', hne⟩
      · rintro ⟨hjx, c', hc', hf', hne⟩
        rw [herase_ne j hj] at hc'
        exact ⟨⟨hjx, c', hc', hf', hne⟩, fun hco => hj hco.2⟩
  · rw [if_neg ht, hle u j]
    by_cases hj : j = o
    · subst hj
      constructor
      · rintro ⟨-, c', hc', hf', hne⟩
        rw [ho] at hc'
        injection hc' with hc'
        subst hc'
        rw [hf'] at ht
        have hu : u = "" := by simpa [truthyStr] using ht
        exact absurd hu hne
      · intro hr
        exact absurd hr hR_o
    · constructor
      · rintro ⟨hjx, c', hc', hf', hne⟩
        exact ⟨hjx, c', by rw [herase_ne j hj]; exact hc', hf', hne⟩
      · rintro ⟨hjx, c', hc', hf', hne⟩
        rw [herase_ne j hj] at hc'
        exact ⟨hjx, c', hc', hf', hne⟩

/-- Stage D of `addClient`: the final session-index insertion, starting from a
state whose session index is linked except possibly at the new id. -/
theorem wellFormed_addSession (r3 : Registry) (c : SSEClient)
    (hnd : (keysOf r3.clients).Nodup) (hiu : indexOk r3.userClients)
    (his : indexOk r3.sessionClients)
    (hlu : linked r3.clients r3.userClients (fun c => c.userId))
    (hle : linkedExcept r3.clients r3.sessionClients (fun c => c.sessionId) c.id)
    (hc : mapLookup c.id r3.clients = some c) :
    wellFormed (if truthyStr c.sessionId then
        { r3 with sessionClients :=
            addToIndex r3.sessionClients (c.sessionId.getD "") c.id }
      else r3) := by
  by_cases ts : truthyStr c.sessionId
  · rw [if_pos ts]
    obtain ⟨s, hs, hsne⟩ : ∃ s, c.sessionId = some s ∧ s ≠ "" := by
      cases hf : c.sessionId with
      | none => rw [hf] at ts; exact absurd ts (by simp [truthyStr])
      | some v =>
        rw [hf] at ts
        exact ⟨v, rfl, by simpa [truthyStr] using ts⟩
    refine ⟨hnd, hiu, ?_, hlu, ?_⟩
    · exact indexOk_addToIndex _ _ his
    · rw [hs]
      exact linked_of_linkedExcept_addToIndex hle hc hs hsne
  · rw [if_neg ts]
    refine ⟨hnd, hiu, his, hlu, ?_⟩
    exact linked_of_linkedExcept_skip hle hc (by
      show truthyStr c.sessionId = false
      exact Bool.not_eq_true _ ▸ by simpa using ts)

/-- The state of `addClient` after the primary-map insertion and the
user-index insertion (before the eviction check). -/
def addMid (r : Registry) (c : SSEClient) : Registry :=
  { removeClient r c.id with
    clients := setKey c.id c (removeClient r c.id).clients
    userClients := addToIndex (removeClient r c.id).userClients (c.userId.getD "") c.id }

/-- The user set read back by the eviction check. -/
def addUserSet (r : Registry) (c : SSEClient) : List String :=
  (mapLookup (c.userId.getD "") (addMid r c).userClients).getD []

/-- The state of `addClient` before the session-index insertion. -/
def addStage3 (r : Registry) (c : SSEClient) : Registry :=
  let r1 := removeClient r c.id
  let r2 := { r1 with clients := setKey c.id c r1.clients }
  if truthyStr c.userId then
    let r2a := { r2 with
      userClients := addToIndex r2.userClients (c.userId.getD "") c.id }
    let userSet := (mapLookup (c.userId.getD "") r2a.userClients).getD []
    if userSet.length > r.maxClientsPerUser then
      match userSet.head? with
      | some oldest => if oldest = "" then r2a else removeClient r2a oldest
      | none => r2a
    else r2a
  else r2

theorem addClient_eq (r : Registry) (c : SSEClient) :
    addClient r c =
      (let r3 := addStage3 r c
       if truthyStr c.sessionId then
         { r3 with sessionClients := addToIndex r3.sessionClients (c.sessionId.getD "") c.id }
       else r3) := rfl

theorem addStage3_of_not_truthy {r : Registry} {c : SSEClient}
    (ht : truthyStr c.userId = false) :
    addStage3 r c =
      { removeClient r c.id with
        clients := setKey c.id c (removeClient r c.id).clients } := by
  simp only [addStage3, ht, Bool.false_eq_true, if_false]

theorem addStage3_of_truthy_noevict {r : Registry} {c : SSEClient}
    (ht : truthyStr c.userId = true)
    (hlen : ¬ ((addUserSet r c).length > r.maxClientsPerUser)) :
    addStage3 r c = addMid r c := by
  have hlen' := hlen
  simp only [addUserSet, addMid] at hlen'
  simp only [addStage3, ht, if_true]
  rw [if_neg hlen']
  rfl

theorem addStage3_of_truthy_evict_head_empty {r : Registry} {c : SSEClient}
    (ht : truthyStr c.userId = true)
    (hlen : (addUserSet r c).length > r.maxClientsPerUser)
    (hhead : (addUserSet r c).head? = some "") :
    addStage3 r c = addMid r c := by
  have hlen' := hlen
  simp only [addUserSet, addMid] at hlen'
  simp only [addStage3, ht, if_true]
  rw [if_pos hlen']
  show (match (addUserSet r c).head? with
    | some oldest => if oldest = "" then addMid r c else removeClient (addMid r c) oldest
    | none => addMid r c) = addMid r c
  rw [hhead]
  simp

theorem addStage3_of_truthy_evict {r : Registry} {c : SSEClient} {o : String}
    (ht : truthyStr c.userId = true)
    (hlen : (addUserSet r c).length > r.maxClientsPerUser)
    (hhead : (addUserSet r c).head? = some o) (hone : o ≠ "") :
    addStage3 r c = removeClient (addMid r c) o := by
  have hlen' := hlen
  simp only [addUserSet, addMid] at hlen'
  simp only [addStage3, ht, if_true]
  rw [if_pos hlen']
  show (match (addUserSet r c).head? with
    | some oldest => if oldest = "" then addMid r c else removeClient (addMid r c) oldest
    | none => addMid r c) = removeClient (addMid r c) o
  rw [hhead]
  simp [hone]

theorem addStage3_facts (r : Registry) (c : SSEClient)
    (hmax : 1 ≤ r.maxClientsPerUser) (h : wellFormed r) :
    (keysOf (addStage3 r c).clients).Nodup ∧
    indexOk (addStage3 r c).userClients ∧
    indexOk (addStage3 r c).sessionClients ∧
    linked (addStage3 r c).clients (addStage3 r c).userClients (fun x => x.userId) ∧
    linkedExcept (addStage3 r c).clients (addStage3 r c).sessionClients
      (fun x => x.sessionId) c.id ∧
    mapLookup c.id (addStage3 r c).clients = some c := by
  obtain ⟨hnd1, hiu1, his1, hlu1, hls1⟩ := wellFormed_removeClient r c.id h
  have hA : mapLookup c.id (removeClient r c.id).clients = none := by
    rw [removeClient_clients_lookup r c.id c.id h.1, if_pos rfl]
  have hnd2 : (keysOf (setKey c.id c (removeClient r c.id).clients)).Nodup :=
    keysOf_setKey_nodup hnd1
  have hB2 : mapLookup c.id (setKey c.id c (removeClient r c.id).clients) = some c :=
    mapLookup_setKey_self _ _ _
  have hle2 : linkedExcept (setKey c.id c (removeClient r c.id).clients)
      (removeClient r c.id).sessionClients (fun x => x.sessionId) c.id :=
    linkedExcept_insert c hA hls1
  by_cases ht : truthyStr c.userId
  case neg =>
    have htf : truthyStr c.userId = false := by simpa using ht
    rw [addStage3_of_not_truthy htf]
    exact ⟨hnd2, hiu1, his1, linked_insert_skip hA hlu1 htf, hle2, hB2⟩
  case pos =>
    obtain ⟨u, hu, hune⟩ : ∃ u, c.userId = some u ∧ u ≠ "" := by
      cases hf : c.userId with
      | none => rw [hf] at ht; exact absurd ht (by simp [truthyStr])
      | some v =>
        rw [hf] at ht
        exact ⟨v, rfl, by simpa [truthyStr] using ht⟩
    have hlu_mid : linked (addMid r c).clients (addMid r c).userClients
        (fun x => x.userId) := by
      show linked (setKey c.id c (removeClient r c.id).clients)
        (addToIndex (removeClient r c.id).userClients (c.userId.getD "") c.id)
        (fun x => x.userId)
      rw [hu]
      exact linked_insert_addToIndex hA hlu1 hu hune
    have hiu_mid : indexOk (addMid r c).userClients := indexOk_addToIndex _ _ hiu1
    by_cases hlen : (addUserSet r c).length > r.maxClientsPerUser
    case neg =>
      rw [addStage3_of_truthy_noevict ht hlen]
      exact ⟨hnd2, hiu_mid, his1, hlu_mid, hle2, hB2⟩
    case pos =>
      set s0 := (mapLookup u (removeClient r c.id).userClients).getD [] with hs0def
      have hset : addUserSet r c = setAdd c.id s0 := by
        rw [hs0def]
        simp only [addUserSet, addMid, hu, Option.getD_some, mapLookup_addToIndex_self]
      have hnotin : c.id ∉ s0 := by
        intro hmem
        cases hm : mapLookup u (removeClient r c.id).userClients with
        | none =>
          rw [hs0def, hm] at hmem
          exact absurd hmem (List.not_mem_nil _)
        | some s =>
          have hin : inIndex (removeClient r c.id).userClients u c.id :=
            ⟨s, hm, by rw [hs0def, hm] at hmem; exact hmem⟩
          obtain ⟨c', hc', -, -⟩ := (hlu1 u c.id).mp hin
          rw [hA] at hc'
          cases hc'
      have hsetapp : addUserSet r c = s0 ++ [c.id] := by
        rw [hset]
        unfold setAdd
        rw [if_neg hnotin]
      have hs0ne : s0 ≠ [] := by
        intro h0
        rw [hsetapp, h0] at hlen
        simp at hlen
        omega
      obtain ⟨a, t, hat⟩ : ∃ a t, s0 = a :: t := by
        cases hs : s0 with
        | nil => exact absurd hs hs0ne
        | cons a t => exact ⟨a, t, rfl⟩
      have hhead : (addUserSet r c).head? = some a := by
        rw [hsetapp, hat]
        rfl
      have hamem : a ∈ s0 := by
        rw [hat]
        exact List.mem_cons_self _ _
      have hane : a ≠ c.id := fun hh => hnotin (hh ▸ hamem)
      have hm_u : mapLookup u (removeClient r c.id).userClients = some s0 := by
        cases hm : mapLookup u (removeClient r c.id).userClients with
        | none =>
          exfalso
          apply hs0ne
          rw [hs0def, hm]
          rfl
        | some s =>
          rw [hs0def, hm]
          rfl
      have hin_a : inIndex (removeClient r c.id).userClients u a := ⟨s0, hm_u, hamem⟩
      obtain ⟨ca, hca, hfa, -⟩ := (hlu1 u a).mp hin_a
      have hca2 : mapLookup a (addMid r c).clients = some ca := by
        show mapLookup a (setKey c.id c (removeClient r c.id).clients) = some ca
        rw [mapLookup_setKey_ne _ _ _ _ (fun hh => hane hh.symm)]
        exact hca
      by_cases haempty : a = ""
      case pos =>
        rw [addStage3_of_truthy_evict_head_empty ht hlen (by rw [hhead, haempty])]
        exact ⟨hnd2, hiu_mid, his1, hlu_mid, hle2, hB2⟩
      case neg =>
        rw [addStage3_of_truthy_evict ht hlen hhead haempty]
        rw [removeClient_of_some hca2]
        refine ⟨?_, ?_, ?_, ?_, ?_, ?_⟩
        · exact keysOf_eraseKey_nodup hnd2
        · by_cases hta : truthyStr ca.userId
          · rw [if_pos hta]
            exact indexOk_removeFromIndex _ _ hiu_mid
          · rw [if_neg hta]
            exact hiu_mid
        · by_cases hta : truthyStr ca.sessionId
          · rw [if_pos hta]
            exact indexOk_removeFromIndex _ _ his1
          · rw [if_neg hta]
            exact his1
        · exact linked_erase hnd2 hiu_mid.1 hca2 hlu_mid
        · exact linkedExcept_erase hnd2 his1.1 hca2 hane hle2
        · rw [mapLookup_eraseKey_ne _ _ _ hane]
          exact hB2

/-- `addClient` preserves well-formedness whenever `maxClientsPerUser ≥ 1`
(with `maxClientsPerUser = 0` the self-eviction leaves a dangling session
entry, see the counterexample for C6). -/
theorem wellFormed_addClient (r : Registry) (c : SSEClient)
    (hmax : 1 ≤ r.maxClientsPerUser) (h : wellFormed r) :
    wellFormed (addClient r c) := by
  rw [addClient_eq]
  obtain ⟨h1, h2, h3, h4, h5, h6⟩ := addStage3_facts r c hmax h
  exact wellFormed_addSession _ c h1 h2 h3 h4 h5 h6

theorem wellFormed_applyOp (r : Registry) (op : Op) (hmax : 1 ≤ r.maxClientsPerUser)
    (h : wellFormed r) : wellFormed (applyOp r op) := by
  cases op with
  | add c => exact wellFormed_addClient r c hmax h
  | remove i => exact wellFormed_removeClient r i h
  | sendClient i e now => exact wellFormed_sendToClient r i e now h
  | sendUser u e now => exact wellFormed_sendToUser r u e now h
  | sendSession s e now => exact wellFormed_sendToSession r s e now h
  | bcast e excl now => exact wellFormed_broadcast r e excl now h
  | ping i now => exact wellFormed_sendToClient r i _ now h
  | cleanup now => exact wellFormed_cleanup r now h
  | destroy => exact wellFormed_destroy r

theorem wellFormed_initRegistry (m : Nat) (hb : Int) :
    wellFormed (initRegistry m hb) := by
  unfold initRegistry
  refine ⟨List.nodup_nil, ⟨List.nodup_nil, by simp⟩, ⟨List.nodup_nil, by simp⟩, ?_, ?_⟩
  · intro u j
    constructor
    · rintro ⟨s, hs, -⟩
      cases hs
    · rintro ⟨c, hc, -, -⟩
      cases hc
  · intro u j
    constructor
    · rintro ⟨s, hs, -⟩
      cases hs
    · rintro ⟨c, hc, -, -⟩
      cases hc

/-- The invariant stated by the spec (§3 "Registry indexes"): at most one
user-index set and one session-index set per connection id, index entries
backed by the primary map, and no empty sets. -/
def ClaimInv (r : Registry) : Prop :=
  (∀ p ∈ r.userClients, ∀ q ∈ r.userClients, ∀ i ∈ p.2, i ∈ q.2 → p.1 = q.1) ∧
  (∀ p ∈ r.sessionClients, ∀ q ∈ r.sessionClients, ∀ i ∈ p.2, i ∈ q.2 → p.1 = q.1) ∧
  (∀ p ∈ r.userClients, ∀ i ∈ p.2, (mapLookup i r.clients).isSome) ∧
  (∀ p ∈ r.sessionClients, ∀ i ∈ p.2, (mapLookup i r.clients).isSome) ∧
  (∀ p ∈ r.userClients, p.2 ≠ []) ∧
  (∀ p ∈ r.sessionClients, p.2 ≠ [])

instance (r : Registry) : Decidable (ClaimInv r) := by
  unfold ClaimInv
  infer_instance

theorem inIndex_of_mem {idx : List (String × List String)} {p : String × List String}
    (hk : (keysOf idx).Nodup) (hp : p ∈ idx) {i : String} (hi : i ∈ p.2) :
    inIndex idx p.1 i := by
  refine ⟨p.2, ?_, hi⟩
  have : (p.1, p.2) ∈ idx := by
    cases p
    exact hp
  exact mapLookup_eq_of_mem hk this

theorem ClaimInv_of_wellFormed (r : Registry) (h : wellFormed r) : ClaimInv r := by
  obtain ⟨hnd, hiu, his, hlu, hls⟩ := h
  have atmost : ∀ (idx : List (String × List String)) (fld : SSEClient → Option String),
      indexOk idx → linked r.clients idx fld →
      ∀ p ∈ idx, ∀ q ∈ idx, ∀ i ∈ p.2, i ∈ q.2 → p.1 = q.1 := by
    intro idx fld hok hl p hp q hq i hip hiq
    obtain ⟨cp, hcp, hfp, -⟩ := (hl p.1 i).mp (inIndex_of_mem hok.1 hp hip)
    obtain ⟨cq, hcq, hfq, -⟩ := (hl q.1 i).mp (inIndex_of_mem hok.1 hq hiq)
    have hceq : cp = cq := by
      rw [hcp] at hcq
      exact Option.some.inj hcq
    subst hceq
    rw [hfp] at hfq
    exact Option.some.inj hfq
  have backed : ∀ (idx : List (String × List String)) (fld : SSEClient → Option String),
      indexOk idx → linked r.clients idx fld →
      ∀ p ∈ idx, ∀ i ∈ p.2, (mapLookup i r.clients).isSome := by
    intro idx fld hok hl p hp i hip
    obtain ⟨cp, hcp, -, -⟩ := (hl p.1 i).mp (inIndex_of_mem hok.1 hp hip)
    rw [hcp]
    rfl
  exact ⟨atmost _ _ hiu hlu, atmost _ _ his hls,
    backed _ _ hiu hlu, backed _ _ his hls,
    fun p hp => (hiu.2 p hp).1, fun p hp => (his.2 p hp).1⟩

/-! #### Cleanup characterization -/

theorem nodupKeys_removeClient (r : Registry) (i : String)
    (hnd : (keysOf r.clients).Nodup) : (keysOf (removeClient r i).clients).Nodup := by
  cases hc : mapLookup i r.clients with
  | none => rw [removeClient_of_none hc]; exact hnd
  | some c => rw [removeClient_of_some hc]; exact keysOf_eraseKey_nodup hnd

theorem foldl_removeClient_lookup (L : List String) :
    ∀ (r : Registry), (keysOf r.clients).Nodup → ∀ j,
      mapLookup j (L.foldl removeClient r).clients
        = if j ∈ L then none else mapLookup j r.clients := by
  induction L with
  | nil =>
    intro r hnd j
    simp
  | cons i rest ih =>
    intro r hnd j
    show mapLookup j (rest.foldl removeClient (removeClient r i)).clients = _
    rw [ih _ (nodupKeys_removeClient r i hnd) j, removeClient_clients_lookup r i j hnd]
    by_cases h1 : j ∈ rest
    · simp [h1]
    · by_cases h2 : j = i
      · simp [h1, h2]
      · simp [h1, h2]

theorem mem_staleKeys_iff (r : Registry) (now : Int) (j : String)
    (hnd : (keysOf r.clients).Nodup) :
    j ∈ keysOf (r.clients.filter
        (fun p => now - p.2.lastPing > r.heartbeatInterval * 2))
      ↔ ∃ c, mapLookup j r.clients = some c ∧
          now - c.lastPing > r.heartbeatInterval * 2 := by
  unfold keysOf
  rw [List.mem_map]
  constructor
  · rintro ⟨p, hp, rfl⟩
    rw [List.mem_filter] at hp
    refine ⟨p.2, ?_, by simpa using hp.2⟩
    have : (p.1, p.2) ∈ r.clients := by
      cases p
      exact hp.1
    exact mapLookup_eq_of_mem hnd this
  · rintro ⟨c, hc, hstale⟩
    refine ⟨(j, c), ?_, rfl⟩
    rw [List.mem_filter]
    exact ⟨mem_of_mapLookup_eq_some hc, by simpa using hstale⟩

/-! #### The dispatch service (`SSEService`) -/

/-- The storage adapter as the Dispatch Service sees it: the result of
`isAvailable()` and whether `publish` rejects. -/
structure StorageAdapter where
  available : Bool
  publishFails : Bool
deriving Repr, DecidableEq

/-- The state of `SSEService`: the registry plus the configured adapter. -/
structure SSEServiceState where
  manager : Registry
  adapter : StorageAdapter
deriving Repr, DecidableEq

/-- `JSON.stringify({ data, timestamp: Date.now() })` with `data` an opaque
pre-serialized string. -/
def envelopeData (data : String) (now : Int) : String :=
  "\x7b\"data\":" ++ data ++ ",\"timestamp\":" ++ intToDecimal now ++ "\x7d"

/-- `SSEService.sendToUser`: build the event, always deliver locally through
the registry, then distribute through the adapter when it is available; each
of the three result paths (publish succeeded, publish threw and was caught,
adapter unavailable) returns `true`. -/
def serviceSendToUser (svc : SSEServiceState) (userId eventType data : String)
    (now : Int) : SSEServiceState × Bool :=
  let event : SSEEvent := { event := eventType, data := envelopeData data now }
  let m' := (sendToUser svc.manager userId event now).1
  if svc.adapter.available then
    if svc.adapter.publishFails then
      ({ svc with manager := m' }, true)
    else
      ({ svc with manager := m' }, true)
  else
    ({ svc with manager := m' }, true)

/-- `SSEService.sendNotification`. -/
def sendNotification (svc : SSEServiceState) (userId data : String) (now : Int) :
    SSEServiceState × Bool :=
  serviceSendToUser svc userId "notification" data now

/-- `SSEService.sendReelUploadProgress`. -/
def sendReelUploadProgress (svc : SSEServiceState) (userId data : String) (now : Int) :
    SSEServiceState × Bool :=
  serviceSendToUser svc userId "reel_upload_progress" data now

/-- `SSEService.sendReelReady`. -/
def sendReelReady (svc : SSEServiceState) (userId data : String) (now : Int) :
    SSEServiceState × Bool :=
  serviceSendToUser svc userId "reel_ready" data now

/-- `SSEService.sendUserUpdate`. -/
def sendUserUpdate (svc : SSEServiceState) (userId data : String) (now : Int) :
    SSEServiceState × Bool :=
  serviceSendToUser svc userId "user_update" data now

/-- `SSEService.sendSystemAlert`. -/
def sendSystemAlert (svc : SSEServiceState) (userId data : String) (now : Int) :
    SSEServiceState × Bool :=
  serviceSendToUser svc userId "system_alert" data now

/-- `SSEService.sendCustomEvent`. -/
def sendCustomEvent (svc : SSEServiceState) (userId eventType data : String)
    (now : Int) : SSEServiceState × Bool :=
  serviceSendToUser svc userId eventType data now

/-! #### Frame lemmas for the fan-out operations -/

theorem removeClient_frame (r : Registry) (i : String) (h : wellFormed r)
    (j : String) (hj : j ≠ i) :
    mapLookup j (removeClient r i).clients = mapLookup j r.clients ∧
    (∀ u, inIndex (removeClient r i).userClients u j ↔ inIndex r.userClients u j) ∧
    (∀ s, inIndex (removeClient r i).sessionClients s j ↔ inIndex r.sessionClients s j) := by
  cases hc : mapLookup i r.clients with
  | none =>
    rw [removeClient_of_none hc]
    exact ⟨rfl, fun u => Iff.rfl, fun s => Iff.rfl⟩
  | some c =>
    rw [removeClient_of_some hc]
    refine ⟨mapLookup_eraseKey_ne _ _ _ (fun hh => hj hh.symm), ?_, ?_⟩
    · intro u
      by_cases ht : truthyStr c.userId
      · rw [if_pos ht]
        show inIndex (removeFromIndex r.userClients (c.userId.getD "") i) u j ↔ _
        rw [inIndex_removeFromIndex h.2.1.1]
        constructor
        · exact fun hp => hp.1
        · exact fun hp => ⟨hp, fun hco => hj hco.2⟩
      · rw [if_neg ht]
    · intro s
      by_cases ht : truthyStr c.sessionId
      · rw [if_pos ht]
        show inIndex (removeFromIndex r.sessionClients (c.sessionId.getD "") i) s j ↔ _
        rw [inIndex_removeFromIndex h.2.2.1.1]
        constructor
        · exact fun hp => hp.1
        · exact fun hp => ⟨hp, fun hco => hj hco.2⟩
      · rw [if_neg ht]

theorem sendToClient_frame (r : Registry) (i : String) (e : SSEEvent) (now : Int)
    (h : wellFormed r) (j : String) (hj : j ≠ i) :
    mapLookup j (sendToClient r i e now).1.clients = mapLookup j r.clients ∧
    (∀ u, inIndex (sendToClient r i e now).1.userClients u j
      ↔ inIndex r.userClients u j) ∧
    (∀ s, inIndex (sendToClient r i e now).1.sessionClients s j
      ↔ inIndex r.sessionClients s j) := by
  cases hc : mapLookup i r.clients with
  | none =>
    rw [sendToClient_of_none e now hc]
    exact ⟨rfl, fun u => Iff.rfl, fun s => Iff.rfl⟩
  | some c =>
    cases hcon : c.isConnected with
    | false =>
      rw [sendToClient_of_disconnected e now hc hcon]
      exact ⟨rfl, fun u => Iff.rfl, fun s => Iff.rfl⟩
    | true =>
      cases hw : c.writeOk with
      | false =>
        rw [sendToClient_of_writeFail e now hc hcon hw]
        exact removeClient_frame r i h j hj
      | true =>
        rw [sendToClient_of_writeOk e now hc hcon hw]
        exact ⟨mapLookup_updateKey_ne _ _ _ _ (fun hh => hj hh.symm),
          fun u => Iff.rfl, fun s => Iff.rfl⟩

theorem foldl_removeClient_frame (L : List String) :
    ∀ (r : Registry), wellFormed r → ∀ j, j ∉ L →
      mapLookup j (L.foldl removeClient r).clients = mapLookup j r.clients ∧
      (∀ u, inIndex (L.foldl removeClient r).userClients u j
        ↔ inIndex r.userClients u j) ∧
      (∀ s, inIndex (L.foldl removeClient r).sessionClients s j
        ↔ inIndex r.sessionClients s j) := by
  induction L with
  | nil => exact fun r _ j _ => ⟨rfl, fun u => Iff.rfl, fun s => Iff.rfl⟩
  | cons i rest ih =>
    intro r h j hj
    rw [List.mem_cons] at hj
    push_neg at hj
    have h1 := removeClient_frame r i h j hj.1
    have h2 := ih (removeClient r i) (wellFormed_removeClient r i h) j hj.2
    exact ⟨h2.1.trans h1.1,
      fun u => (h2.2.1 u).trans (h1.2.1 u),
      fun s => (h2.2.2 s).trans (h1.2.2 s)⟩

theorem sendLoop_frame (e : SSEEvent) (now : Int) (ids : List String) :
    ∀ (r : Registry), wellFormed r → ∀ j, j ∉ ids →
      mapLookup j (sendLoop r ids e now).1.clients = mapLookup j r.clients ∧
      (∀ u, inIndex (sendLoop r ids e now).1.userClients u j
        ↔ inIndex r.userClients u j) ∧
      (∀ s, inIndex (sendLoop r ids e now).1.sessionClients s j
        ↔ inIndex r.sessionClients s j) := by
  induction ids with
  | nil => exact fun r _ j _ => ⟨rfl, fun u => Iff.rfl, fun s => Iff.rfl⟩
  | cons i rest ih =>
    intro r h j hj
    rw [List.mem_cons] at hj
    push_neg at hj
    have h1 := sendToClient_frame r i e now h j hj.1
    have h2 := ih (sendToClient r i e now).1 (wellFormed_sendToClient r i e now h) j hj.2
    exact ⟨h2.1.trans h1.1,
      fun u => (h2.2.1 u).trans (h1.2.1 u),
      fun s => (h2.2.2 s).trans (h1.2.2 s)⟩

theorem sendLoop_failed_subset (e : SSEEvent) (now : Int) (ids : List String) :
    ∀ (r : Registry) (x : String), x ∈ (sendLoop r ids e now).2.1 → x ∈ ids := by
  induction ids with
  | nil =>
    intro r x hx
    exact absurd hx (List.not_mem_nil x)
  | cons i rest ih =>
    intro r x hx
    show x ∈ i :: rest
    by_cases hok : (sendToClient r i e now).2.1
    · have heq : (sendLoop r (i :: rest) e now).2.1
          = (sendLoop (sendToClient r i e now).1 rest e now).2.1 := by
        show (if (sendToClient r i e now).2.1 then _ else _) = _
        rw [if_pos hok]
      rw [heq] at hx
      exact List.mem_cons.mpr (Or.inr (ih _ x hx))
    · have : (sendLoop r (i :: rest) e now).2.1
          = i :: (sendLoop (sendToClient r i e now).1 rest e now).2.1 := by
        show (if (sendToClient r i e now).2.1 then _ else _) = _
        rw [if_neg hok]
      rw [this] at hx
      rcases List.mem_cons.mp hx with hx | hx
      · exact List.mem_cons.mpr (Or.inl hx)
      · exact List.mem_cons.mpr (Or.inr (ih _ x hx))

theorem sendLoop_trace (e : SSEEvent) (now : Int) (ids : List String) :
    ∀ (r : Registry), wellFormed r →
      (∀ i ∈ ids, ∃ c, mapLookup i r.clients = some c ∧ c.isConnected = true) →
      ids.Nodup →
      (sendLoop r ids e now).2.2 = ids.map (fun i => (i, formatSSEEvent e)) := by
  induction ids with
  | nil => exact fun r _ _ _ => rfl
  | cons i rest ih =>
    intro r h hreg hnd
    rw [List.nodup_cons] at hnd
    obtain ⟨c, hc, hcon⟩ := hreg i (List.mem_cons_self i rest)
    have hrest : ∀ j ∈ rest, ∃ c', mapLookup j (sendToClient r i e now).1.clients = some c'
        ∧ c'.isConnected = true := by
      intro j hjr
      obtain ⟨c', hc', hcon'⟩ := hreg j (List.mem_cons_of_mem i hjr)
      have hne : j ≠ i := fun hh => hnd.1 (hh ▸ hjr)
      rw [(sendToClient_frame r i e now h j hne).1]
      exact ⟨c', hc', hcon'⟩
    have htail : (sendLoop (sendToClient r i e now).1 rest e now).2.2
        = rest.map (fun i => (i, formatSSEEvent e)) :=
      ih _ (wellFormed_sendToClient r i e now h) hrest hnd.2
    show (sendToClient r i e now).2.2
        ++ (sendLoop (sendToClient r i e now).1 rest e now).2.2 = _
    rw [htail]
    cases hw : c.writeOk with
    | true =>
      rw [sendToClient_of_writeOk e now hc hcon hw]
      rfl
    | false =>
      rw [sendToClient_of_writeFail e now hc hcon hw]
      rfl

/-! #### Per-user count bookkeeping -/

/-- The per-user ceiling property. -/
def bounded (r : Registry) : Prop :=
  ∀ u, getClientCountForUser r u ≤ r.maxClientsPerUser

theorem countForUser_def2 (r : Registry) (u : String) :
    getClientCountForUser r u = ((mapLookup u r.userClients).getD []).length := by
  cases h : mapLookup u r.userClients with
  | none => simp [getClientCountForUser, h]
  | some s => simp [getClientCountForUser, h]

theorem countForUser_removeClient_le (r : Registry) (i : String)
    (hnd : (keysOf r.userClients).Nodup) (u : String) :
    getClientCountForUser (removeClient r i) u ≤ getClientCountForUser r u := by
  cases hc : mapLookup i r.clients with
  | none =>
    rw [removeClient_of_none hc]
  | some c =>
    rw [removeClient_of_some hc]
    rw [countForUser_def2, countForUser_def2]
    show (((mapLookup u (if truthyStr c.userId then
      removeFromIndex r.userClients (c.userId.getD "") i else r.userClients))).getD []).length ≤ _
    by_cases ht : truthyStr c.userId
    · rw [if_pos ht]
      set key := c.userId.getD "" with hkey
      cases hl : mapLookup key r.userClients with
      | none => rw [removeFromIndex_of_none i hl]
      | some s =>
        by_cases hfe : s.filter (· ≠ i) = []
        · rw [removeFromIndex_of_some_nil hl hfe]
          by_cases hu : u = key
          · subst hu
            rw [mapLookup_eraseKey_self _ _ hnd]
            simp
          · rw [mapLookup_eraseKey_ne _ _ _ (fun hh => hu hh.symm)]
        · rw [removeFromIndex_of_some_cons hl hfe]
          by_cases hu : u = key
          · subst hu
            rw [mapLookup_setKey_self, hl]
            exact List.length_filter_le _ _
          · rw [mapLookup_setKey_ne _ _ _ _ (fun hh => hu hh.symm)]
    · rw [if_neg ht]

theorem countForUser_sendToClient_le (r : Registry) (i : String) (e : SSEEvent)
    (now : Int) (h : wellFormed r) (u : String) :
    getClientCountForUser (sendToClient r i e now).1 u ≤ getClientCountForUser r u := by
  cases hc : mapLookup i r.clients with
  | none => rw [sendToClient_of_none e now hc]
  | some c =>
    cases hcon : c.isConnected with
    | false => rw [sendToClient_of_disconnected e now hc hcon]
    | true =>
      cases hw : c.writeOk with
      | false =>
        rw [sendToClient_of_writeFail e now hc hcon hw]
        exact countForUser_removeClient_le r i h.2.1.1 u
      | true =>
        rw [sendToClient_of_writeOk e now hc hcon hw]
        exact Nat.le_refl _

theorem countForUser_foldl_removeClient_le (L : List String) :
    ∀ (r : Registry), wellFormed r → ∀ u,
      getClientCountForUser (L.foldl removeClient r) u ≤ getClientCountForUser r u := by
  induction L with
  | nil => exact fun r _ u => Nat.le_refl _
  | cons i rest ih =>
    intro r h u
    exact Nat.le_trans (ih _ (wellFormed_removeClient r i h) u)
      (countForUser_removeClient_le r i h.2.1.1 u)

theorem countForUser_sendLoop_le (ids : List String) (e : SSEEvent) (now : Int) :
    ∀ (r : Registry), wellFormed r → ∀ u,
      getClientCountForUser (sendLoop r ids e now).1 u ≤ getClientCountForUser r u := by
  induction ids with
  | nil => exact fun r _ u => Nat.le_refl _
  | cons i rest ih =>
    intro r h u
    exact Nat.le_trans (ih _ (wellFormed_sendToClient r i e now h) u)
      (countForUser_sendToClient_le r i e now h u)

theorem addClient_userClients (r : Registry) (c : SSEClient) :
    (addClient r c).userClients = (addStage3 r c).userClients := by
  rw [addClient_eq]
  by_cases ts : truthyStr c.sessionId
  · simp only [ts, if_true]
  · simp only [ts, Bool.false_eq_true, if_false]

theorem addClient_clients (r : Registry) (c : SSEClient) :
    (addClient r c).clients = (addStage3 r c).clients := by
  rw [addClient_eq]
  by_cases ts : truthyStr c.sessionId
  · simp only [ts, if_true]
  · simp only [ts, Bool.false_eq_true, if_false]

theorem mapLookup_addToIndex_ne (idx : List (String × List String))
    (key i u : String) (h : u ≠ key) :
    mapLookup u (addToIndex idx key i) = mapLookup u idx := by
  unfold addToIndex
  exact mapLookup_setKey_ne _ _ _ _ (fun hh => h hh.symm)

theorem truthy_getD {o : Option String} (ht : truthyStr o = true) :
    o = some (o.getD "") ∧ o.getD "" ≠ "" := by
  cases o with
  | none => exact absurd ht (by simp [truthyStr])
  | some v => exact ⟨rfl, by simpa [truthyStr] using ht⟩

theorem addUserSet_eq (r : Registry) (c : SSEClient) (h : wellFormed r)
    (ht : truthyStr c.userId = true) :
    addUserSet r c
      = ((mapLookup (c.userId.getD "") (removeClient r c.id).userClients).getD [])
          ++ [c.id] := by
  have hA : mapLookup c.id (removeClient r c.id).clients = none := by
    rw [removeClient_clients_lookup r c.id c.id h.1, if_pos rfl]
  have hw1 := wellFormed_removeClient r c.id h
  have hnotin : c.id ∉
      ((mapLookup (c.userId.getD "") (removeClient r c.id).userClients).getD []) := by
    intro hmem
    cases hm : mapLookup (c.userId.getD "") (removeClient r c.id).userClients with
    | none =>
      rw [hm] at hmem
      exact absurd hmem (List.not_mem_nil _)
    | some s =>
      rw [hm] at hmem
      obtain ⟨c', hc', -, -⟩ := (hw1.2.2.2.1 (c.userId.getD "") c.id).mp ⟨s, hm, hmem⟩
      rw [hA] at hc'
      cases hc'
  show (mapLookup (c.userId.getD "") (addMid r c).userClients).getD [] = _
  show (mapLookup (c.userId.getD "")
    (addToIndex (removeClient r c.id).userClients (c.userId.getD "") c.id)).getD [] = _
  rw [mapLookup_addToIndex_self]
  show setAdd c.id _ = _
  unfold setAdd
  rw [if_neg hnotin]

theorem countForUser_addClient_le (r : Registry) (c : SSEClient)
    (h : wellFormed r) (hmax : 1 ≤ r.maxClientsPerUser)
    (hids : ∀ p ∈ r.clients, (p : String × SSEClient).1 ≠ "")
    (hb : bounded r) (u : String) :
    getClientCountForUser (addClient r c) u ≤ r.maxClientsPerUser := by
  have hcount_eq : getClientCountForUser (addClient r c) u
      = getClientCountForUser (addStage3 r c) u := by
    rw [countForUser_def2, countForUser_def2, addClient_userClients]
  rw [hcount_eq]
  have hw1 := wellFormed_removeClient r c.id h
  have hb1 : ∀ v, getClientCountForUser (removeClient r c.id) v ≤ r.maxClientsPerUser :=
    fun v => Nat.le_trans (countForUser_removeClient_le r c.id h.2.1.1 v) (hb v)
  by_cases ht : truthyStr c.userId
  case neg =>
    have htf : truthyStr c.userId = false := by simpa using ht
    rw [addStage3_of_not_truthy htf]
    have hv := hb1 u
    rw [countForUser_def2] at hv ⊢
    exact hv
  case pos =>
    obtain ⟨hU_eq, hU_ne⟩ := truthy_getD ht
    set U := c.userId.getD "" with hUdef
    have hA : mapLookup c.id (removeClient r c.id).clients = none := by
      rw [removeClient_clients_lookup r c.id c.id h.1, if_pos rfl]
    have hsets := addUserSet_eq r c h ht
    set s0 := (mapLookup U (removeClient r c.id).userClients).getD [] with hs0def
    have hs0len : s0.length ≤ r.maxClientsPerUser := by
      have hv := hb1 U
      rw [countForUser_def2] at hv
      exact hv
    have hmid_count_other : ∀ v, v ≠ U →
        getClientCountForUser (addMid r c) v
          = getClientCountForUser (removeClient r c.id) v := by
      intro v hv
      rw [countForUser_def2, countForUser_def2]
      show ((mapLookup v (addToIndex (removeClient r c.id).userClients U c.id)).getD
        []).length = _
      rw [mapLookup_addToIndex_ne _ _ _ _ hv]
    have hmid_count_U : getClientCountForUser (addMid r c) U = (addUserSet r c).length := by
      rw [countForUser_def2]
      rfl
    by_cases hlen : (addUserSet r c).length > r.maxClientsPerUser
    case neg =>
      rw [addStage3_of_truthy_noevict ht hlen]
      by_cases hu : u = U
      · subst hu
        rw [hmid_count_U]
        omega
      · rw [hmid_count_other u hu]
        exact hb1 u
    case pos =>
      have hs0ne : s0 ≠ [] := by
        intro h0
        rw [hsets, h0] at hlen
        simp at hlen
        omega
      obtain ⟨a, t, hat⟩ : ∃ a t, s0 = a :: t := by
        cases hs : s0 with
        | nil => exact absurd hs hs0ne
        | cons a t => exact ⟨a, t, rfl⟩
      have hhead : (addUserSet r c).head? = some a := by
        rw [hsets, hat]
        rfl
      have hm_u : mapLookup U (removeClient r c.id).userClients = some s0 := by
        cases hm : mapLookup U (removeClient r c.id).userClients with
        | none =>
          exfalso
          apply hs0ne
          rw [hs0def, hm]
          rfl
        | some s =>
          rw [hs0def, hm]
          rfl
      have hamem : a ∈ s0 := by
        rw [hat]
        exact List.mem_cons_self _ _
      obtain ⟨ca, hca1, hfa0, -⟩ := (hw1.2.2.2.1 U a).mp ⟨s0, hm_u, hamem⟩
      have hfa : ca.userId = some U := hfa0
      have hanec : a ≠ c.id := by
        intro hh
        rw [hh, hA] at hca1
        cases hca1
      have hane : a ≠ "" := by
        rw [removeClient_clients_lookup r c.id a h.1, if_neg hanec] at hca1
        exact hids (a, ca) (mem_of_mapLookup_eq_some hca1)
      rw [addStage3_of_truthy_evict ht hlen hhead hane]
      have hca2 : mapLookup a (addMid r c).clients = some ca := by
        show mapLookup a (setKey c.id c (removeClient r c.id).clients) = some ca
        rw [mapLookup_setKey_ne _ _ _ _ (fun hh => hanec hh.symm)]
        exact hca1
      rw [removeClient_of_some hca2]
      have hta : truthyStr ca.userId = true := by
        rw [hfa]
        simpa [truthyStr] using hU_ne
      rw [countForUser_def2]
      show ((mapLookup u (if truthyStr ca.userId then
        removeFromIndex (addMid r c).userClients (ca.userId.getD "") a
        else (addMid r c).userClients)).getD []).length ≤ _
      rw [if_pos hta]
      have hgetD : ca.userId.getD "" = U := by
        rw [hfa]
        rfl
      rw [hgetD]
      rw [show (addMid r c).userClients
        = addToIndex (removeClient r c.id).userClients U c.id from rfl]
      have hau : addUserSet r c = setAdd c.id s0 := by
        show (mapLookup U (addToIndex (removeClient r c.id).userClients U c.id)).getD []
          = setAdd c.id s0
        rw [mapLookup_addToIndex_self, ← hs0def]
        rfl
      have hlookU : mapLookup U (addToIndex (removeClient r c.id).userClients U c.id)
          = some (addUserSet r c) := by
        rw [mapLookup_addToIndex_self, hau, ← hs0def]
      have hamem2 : a ∈ addUserSet r c := by
        rw [hsets]
        exact List.mem_append.mpr (Or.inl hamem)
      by_cases hu : u = U
      · subst hu
        by_cases hfe : (addUserSet r c).filter (· ≠ a) = []
        · rw [removeFromIndex_of_some_nil hlookU hfe]
          rw [mapLookup_eraseKey_self _ _ (indexOk_addToIndex _ _ hw1.2.1).1]
          simp
        · rw [removeFromIndex_of_some_cons hlookU hfe]
          rw [mapLookup_setKey_self]
          have hlt : ((addUserSet r c).filter (· ≠ a)).length < (addUserSet r c).length := by
            apply List.length_filter_lt_length_iff_exists.mpr
            exact ⟨a, hamem2, by simp⟩
          have hle : (addUserSet r c).length ≤ r.maxClientsPerUser + 1 := by
            rw [hsets]
            simp
            omega
          show ((addUserSet r c).filter (· ≠ a)).length ≤ _
          omega
      · have hulook : mapLookup u
            (removeFromIndex (addToIndex (removeClient r c.id).userClients U c.id) U a)
            = mapLookup u (addToIndex (removeClient r c.id).userClients U c.id) := by
          cases hl2 : mapLookup U (addToIndex (removeClient r c.id).userClients U c.id) with
          | none => rw [removeFromIndex_of_none a hl2]
          | some s2 =>
            by_cases hfe : s2.filter (· ≠ a) = []
            · rw [removeFromIndex_of_some_nil hl2 hfe]
              exact mapLookup_eraseKey_ne _ _ _ (fun hh => hu hh.symm)
            · rw [removeFromIndex_of_some_cons hl2 hfe]
              exact mapLookup_setKey_ne _ _ _ _ (fun hh => hu hh.symm)
        rw [hulook]
        show ((mapLookup u (addToIndex (removeClient r c.id).userClients U c.id)).getD
          []).length ≤ _
        rw [mapLookup_addToIndex_ne _ _ _ _ hu]
        have hv := hb1 u
        rw [countForUser_def2] at hv
        exact hv

theorem bounded_applyOp (r : Registry) (op : Op) (h : wellFormed r)
    (hmax : 1 ≤ r.maxClientsPerUser)
    (hids : ∀ p ∈ r.clients, (p : String × SSEClient).1 ≠ "")
    (hb : bounded r) (u : String) :
    getClientCountForUser (applyOp r op) u ≤ r.maxClientsPerUser := by
  cases op with
  | add c => exact countForUser_addClient_le r c h hmax hids hb u
  | remove i => exact Nat.le_trans (countForUser_removeClient_le r i h.2.1.1 u) (hb u)
  | sendClient i e now =>
    exact Nat.le_trans (countForUser_sendToClient_le r i e now h u) (hb u)
  | sendUser U e now =>
    show getClientCountForUser (sendToUser r U e now).1 u ≤ _
    cases hU : mapLookup U r.userClients with
    | none =>
      have hst : (sendToUser r U e now).1 = r := by
        unfold sendToUser
        rw [hU]
      rw [hst]
      exact hb u
    | some s =>
      have hst : (sendToUser r U e now).1
          = (sendLoop r s e now).2.1.foldl removeClient (sendLoop r s e now).1 := by
        unfold sendToUser
        rw [hU]
      rw [hst]
      exact Nat.le_trans
        (countForUser_foldl_removeClient_le _ _ (wellFormed_sendLoop s e now r h) u)
        (Nat.le_trans (countForUser_sendLoop_le s e now r h u) (hb u))
  | sendSession sid e now =>
    show getClientCountForUser (sendToSession r sid e now).1 u ≤ _
    cases hS : mapLookup sid r.sessionClients with
    | none =>
      have hst : (sendToSession r sid e now).1 = r := by
        unfold sendToSession
        rw [hS]
      rw [hst]
      exact hb u
    | some s =>
      have hst : (sendToSession r sid e now).1
          = (sendLoop r s e now).2.1.foldl removeClient (sendLoop r s e now).1 := by
        unfold sendToSession
        rw [hS]
      rw [hst]
      exact Nat.le_trans
        (countForUser_foldl_removeClient_le _ _ (wellFormed_sendLoop s e now r h) u)
        (Nat.le_trans (countForUser_sendLoop_le s e now r h u) (hb u))
  | bcast e excl now =>
    show getClientCountForUser (broadcast r e excl now).1 u ≤ _
    unfold broadcast
    exact Nat.le_trans
      (countForUser_foldl_removeClient_le _ _ (wellFormed_sendLoop _ e now r h) u)
      (Nat.le_trans (countForUser_sendLoop_le _ e now r h u) (hb u))
  | ping i now =>
    exact Nat.le_trans (countForUser_sendToClient_le r i _ now h u) (hb u)
  | cleanup now =>
    show getClientCountForUser (cleanup r now) u ≤ _
    unfold cleanup
    exact Nat.le_trans (countForUser_foldl_removeClient_le _ _ h u) (hb u)
  | destroy => exact Nat.zero_le _

/-- The exact eviction shape of `addClient` at a user already at the ceiling:
the oldest member of the user's set is evicted, the fresh connection is
appended, the count stays at the ceiling, and no other client record changes. -/
theorem addClient_evict_shape (r : Registry) (c : SSEClient) (U : String)
    (h : wellFormed r) (hmax : 1 ≤ r.maxClientsPerUser)
    (hids : ∀ p ∈ r.clients, (p : String × SSEClient).1 ≠ "")
    (hfresh : mapLookup c.id r.clients = none)
    (hcu : c.userId = some U)
    (hcount : getClientCountForUser r U = r.maxClientsPerUser) :
    ∃ o t, mapLookup U r.userClients = some (o :: t) ∧
      getUserClients (addClient r c) U = t ++ [c.id] ∧
      getClientCountForUser (addClient r c) U = r.maxClientsPerUser ∧
      mapLookup o (addClient r c).clients = none ∧
      mapLookup c.id (addClient r c).clients = some c ∧
      (∀ j, j ≠ o → j ≠ c.id →
        mapLookup j (addClient r c).clients = mapLookup j r.clients) := by
  obtain ⟨s, hU, hslen⟩ : ∃ s, mapLookup U r.userClients = some s ∧
      s.length = r.maxClientsPerUser := by
    rw [countForUser_def2] at hcount
    cases hU : mapLookup U r.userClients with
    | none =>
      rw [hU] at hcount
      simp at hcount
      omega
    | some s =>
      rw [hU] at hcount
      exact ⟨s, rfl, hcount⟩
  obtain ⟨o, t, hst⟩ : ∃ o t, s = o :: t := by
    cases hs : s with
    | nil =>
      rw [hs] at hslen
      simp at hslen
      omega
    | cons o t => exact ⟨o, t, rfl⟩
  subst hst
  have hsnodup : (o :: t).Nodup := (h.2.1.2 (U, o :: t) (mem_of_mapLookup_eq_some hU)).2
  obtain ⟨co, hco, hcoU0, hUne⟩ :=
    (h.2.2.2.1 U o).mp ⟨o :: t, hU, List.mem_cons_self _ _⟩
  have hcoU : co.userId = some U := hcoU0
  have ht : truthyStr c.userId = true := by
    rw [hcu]
    simpa [truthyStr] using hUne
  have hUget : c.userId.getD "" = U := by
    rw [hcu]
    rfl
  have hr1 : removeClient r c.id = r := removeClient_of_none hfresh
  have hcidnotin : c.id ∉ o :: t := by
    intro hmem
    obtain ⟨c', hc', -, -⟩ := (h.2.2.2.1 U c.id).mp ⟨o :: t, hU, hmem⟩
    rw [hfresh] at hc'
    cases hc'
  have haus : addUserSet r c = (o :: t) ++ [c.id] := by
    rw [addUserSet_eq r c h ht, hUget, hr1, hU]
    rfl
  have hlen : (addUserSet r c).length > r.maxClientsPerUser := by
    rw [haus]
    simp at hslen ⊢
    omega
  have hhead : (addUserSet r c).head? = some o := by
    rw [haus]
    rfl
  have honec : o ≠ c.id := fun hh => hcidnotin (hh ▸ List.mem_cons_self _ _)
  have hone : o ≠ "" := hids (o, co) (mem_of_mapLookup_eq_some hco)
  have hstage := addStage3_of_truthy_evict ht hlen hhead hone
  have hco2 : mapLookup o (addMid r c).clients = some co := by
    show mapLookup o (setKey c.id c (removeClient r c.id).clients) = some co
    rw [hr1, mapLookup_setKey_ne _ _ _ _ (fun hh => honec hh.symm)]
    exact hco
  have hta : truthyStr co.userId = true := by
    rw [hcoU]
    simpa [truthyStr] using hUne
  have hlookU : mapLookup U (addToIndex (removeClient r c.id).userClients U c.id)
      = some (addUserSet r c) := by
    rw [mapLookup_addToIndex_self]
    rw [haus]
    rw [hr1, hU]
    show some (setAdd c.id (o :: t)) = _
    unfold setAdd
    rw [if_neg hcidnotin]
  have hfilter : (addUserSet r c).filter (· ≠ o) = t ++ [c.id] := by
    rw [haus]
    rw [List.nodup_cons] at hsnodup
    show ((o :: t) ++ [c.id]).filter (· ≠ o) = _
    rw [List.cons_append, List.filter_cons]
    simp only [ne_eq, decide_not, Bool.not_eq_eq_eq_not, Bool.not_true, decide_eq_false_iff_not,
      not_not]
    rw [if_neg (by simp)]
    rw [List.filter_eq_self]
    intro a ha
    rcases List.mem_append.mp ha with ha | ha
    · simp only [ne_eq, decide_not, Bool.not_eq_eq_eq_not, Bool.not_true,
        decide_eq_false_iff_not]
      intro hao
      exact hsnodup.1 (hao ▸ ha)
    · simp only [List.mem_singleton] at ha
      subst ha
      simp only [ne_eq, decide_not, Bool.not_eq_eq_eq_not, Bool.not_true,
        decide_eq_false_iff_not]
      intro hac
      exact honec hac.symm
  have hfne : (addUserSet r c).filter (· ≠ o) ≠ [] := by
    rw [hfilter]
    simp
  -- the user set after the call
  have huc : (addClient r c).userClients
      = setKey U (t ++ [c.id]) (addToIndex (removeClient r c.id).userClients U c.id) := by
    rw [addClient_userClients, hstage, removeClient_of_some hco2]
    show (if truthyStr co.userId then
        removeFromIndex (addMid r c).userClients (co.userId.getD "") o
      else (addMid r c).userClients) = _
    rw [if_pos hta]
    rw [show co.userId.getD "" = U from by rw [hcoU]; rfl]
    rw [show (addMid r c).userClients
      = addToIndex (removeClient r c.id).userClients (c.userId.getD "") c.id from rfl]
    rw [hUget]
    rw [removeFromIndex_of_some_cons hlookU hfne, hfilter]
  have hcl : (addClient r c).clients
      = eraseKey o (setKey c.id c r.clients) := by
    rw [addClient_clients, hstage, removeClient_of_some hco2]
    show eraseKey o (addMid r c).clients = _
    rw [show (addMid r c).clients
      = setKey c.id c (removeClient r c.id).clients from rfl, hr1]
  refine ⟨o, t, hU, ?_, ?_, ?_, ?_, ?_⟩
  · unfold getUserClients
    rw [huc, mapLookup_setKey_self]
    rfl
  · rw [countForUser_def2, huc, mapLookup_setKey_self]
    show (t ++ [c.id]).length = _
    simp at hslen ⊢
    omega
  · rw [hcl]
    exact mapLookup_eraseKey_self _ _ (keysOf_setKey_nodup h.1)
  · rw [hcl, mapLookup_eraseKey_ne _ _ _ honec, mapLookup_setKey_self]
  · intro j hjo hjc
    rw [hcl, mapLookup_eraseKey_ne _ _ _ (fun hh => hjo hh.symm),
      mapLookup_setKey_ne _ _ _ _ (fun hh => hjc hh.symm)]

/-! #### Sequences of `addClient`/`removeClient` calls -/

/-- One call of an `addClient`/`removeClient` sequence. -/
inductive ARop where
  | add (c : SSEClient)
  | remove (id : String)
deriving Repr, DecidableEq

/-- Apply one call. -/
def applyAR (r : Registry) : ARop → Registry
  | .add c => addClient r c
  | .remove i => removeClient r i

/-- Run a sequence of calls. -/
def runAR (r : Registry) (ops : List ARop) : Registry := ops.foldl applyAR r

/-- The ids passed to `addClient` in the sequence, in order (with repeats). -/
def addedIds : List ARop → List String
  | [] => []
  | .add c :: rest => c.id :: addedIds rest
  | .remove _ :: rest => addedIds rest

/-- The last `addClient`/`removeClient` verdict the sequence pronounces on an
id: `some true` if the last call naming it is an add, `some false` if it is a
remove, `none` if the sequence never names it. -/
def finalAdded (ops : List ARop) (i : String) : Option Bool :=
  match ops with
  | [] => none
  | op :: rest =>
    match finalAdded rest i with
    | some b => some b
    | none =>
      match op with
      | .add c => if c.id = i then some true else none
      | .remove j => if j = i then some false else none

/-- Whether this `addClient` call would perform an eviction. -/
def evictsB (r : Registry) (c : SSEClient) : Bool :=
  truthyStr c.userId &&
    decide ((addUserSet r c).length > r.maxClientsPerUser) &&
    (match (addUserSet r c).head? with
     | some oldest => decide (oldest ≠ "")
     | none => false)

/-- Whether the whole sequence runs without a single eviction. -/
def evictionFreeB : Registry → List ARop → Bool
  | _, [] => true
  | r, op :: rest =>
    (match op with
     | .add c => !(evictsB r c)
     | .remove _ => true) && evictionFreeB (applyAR r op) rest

theorem nodupKeys_addClient (r : Registry) (c : SSEClient)
    (hnd : (keysOf r.clients).Nodup) : (keysOf (addClient r c).clients).Nodup := by
  rw [addClient_clients]
  have hbase : (keysOf (setKey c.id c (removeClient r c.id).clients)).Nodup :=
    keysOf_setKey_nodup (nodupKeys_removeClient r c.id hnd)
  by_cases ht : truthyStr c.userId
  · by_cases hlen : (addUserSet r c).length > r.maxClientsPerUser
    · cases hL : addUserSet r c with
      | nil =>
        rw [hL] at hlen
        simp at hlen
      | cons a t' =>
        have ho : (addUserSet r c).head? = some a := by
          rw [hL]
          rfl
        by_cases ho0 : a = ""
        · rw [addStage3_of_truthy_evict_head_empty ht hlen (ho0 ▸ ho)]
          exact hbase
        · rw [addStage3_of_truthy_evict ht hlen ho ho0]
          exact nodupKeys_removeClient (addMid r c) a hbase
    · rw [addStage3_of_truthy_noevict ht hlen]
      exact hbase
  · rw [addStage3_of_not_truthy (by simpa using ht)]
    exact hbase

theorem nodupKeys_applyAR (r : Registry) (op : ARop)
    (hnd : (keysOf r.clients).Nodup) : (keysOf (applyAR r op).clients).Nodup := by
  cases op with
  | add c => exact nodupKeys_addClient r c hnd
  | remove i => exact nodupKeys_removeClient r i hnd

theorem addClient_clients_lookup_noevict (r : Registry) (c : SSEClient)
    (hnoev : evictsB r c = false) (hnd : (keysOf r.clients).Nodup) (j : String) :
    mapLookup j (addClient r c).clients
      = if j = c.id then some c else mapLookup j r.clients := by
  have hbase : ∀ j' : String, mapLookup j' (setKey c.id c (removeClient r c.id).clients)
      = if j' = c.id then some c else mapLookup j' r.clients := by
    intro j'
    by_cases hj : j' = c.id
    · subst hj
      rw [if_pos rfl]
      exact mapLookup_setKey_self _ _ _
    · rw [if_neg hj, mapLookup_setKey_ne _ _ _ _ (fun hh => hj hh.symm),
        removeClient_clients_lookup r c.id j' hnd, if_neg hj]
  rw [addClient_clients]
  by_cases ht : truthyStr c.userId
  · by_cases hlen : (addUserSet r c).length > r.maxClientsPerUser
    · cases hL : addUserSet r c with
      | nil =>
        rw [hL] at hlen
        simp at hlen
      | cons a t' =>
        have ho : (addUserSet r c).head? = some a := by
          rw [hL]
          rfl
        have ho0 : a = "" := by
          by_contra hne0
          have hev : evictsB r c = true := by
            unfold evictsB
            rw [ht, ho]
            simp [hlen, hne0]
          rw [hnoev] at hev
          cases hev
        rw [addStage3_of_truthy_evict_head_empty ht hlen (ho0 ▸ ho)]
        exact hbase j
    · rw [addStage3_of_truthy_noevict ht hlen]
      exact hbase j
  · rw [addStage3_of_not_truthy (by simpa using ht)]
    exact hbase j

theorem runAR_lookup (ops : List ARop) :
    ∀ (r : Registry), (keysOf r.clients).Nodup → evictionFreeB r ops = true → ∀ i,
      (mapLookup i (runAR r ops).clients).isSome
        = ((finalAdded ops i).getD (mapLookup i r.clients).isSome) := by
  induction ops with
  | nil =>
    intro r _ _ i
    rfl
  | cons op rest ih =>
    intro r hnd hef i
    cases op with
    | add c =>
      rw [show evictionFreeB r (ARop.add c :: rest)
          = ((!(evictsB r c)) && evictionFreeB (addClient r c) rest) from rfl] at hef
      simp only [Bool.and_eq_true] at hef
      obtain ⟨hef1, hef2⟩ := hef
      have hnoev : evictsB r c = false := by simpa using hef1
      show (mapLookup i (runAR (addClient r c) rest).clients).isSome = _
      rw [ih (addClient r c) (nodupKeys_addClient r c hnd) hef2 i,
        addClient_clients_lookup_noevict r c hnoev hnd i]
      rw [show finalAdded (ARop.add c :: rest) i
          = (match finalAdded rest i with
             | some b => some b
             | none => if c.id = i then some true else none) from rfl]
      cases hfin : finalAdded rest i with
      | some b => rfl
      | none =>
        show Option.getD none (if i = c.id then some c else mapLookup i r.clients).isSome
          = ((if c.id = i then some true else none).getD
              (mapLookup i r.clients).isSome)
        by_cases hj : c.id = i
        · rw [if_pos hj.symm, if_pos hj]
          rfl
        · rw [if_neg (fun hh : i = c.id => hj hh.symm), if_neg hj]
    | remove j =>
      rw [show evictionFreeB r (ARop.remove j :: rest)
          = (true && evictionFreeB (removeClient r j) rest) from rfl] at hef
      simp only [Bool.true_and] at hef
      show (mapLookup i (runAR (removeClient r j) rest).clients).isSome = _
      rw [ih (removeClient r j) (nodupKeys_removeClient r j hnd) hef i,
        removeClient_clients_lookup r j i hnd]
      rw [show finalAdded (ARop.remove j :: rest) i
          = (match finalAdded rest i with
             | some b => some b
             | none => if j = i then some false else none) from rfl]
      cases hfin : finalAdded rest i with
      | some b => rfl
      | none =>
        show Option.getD none (if i = j then none else mapLookup i r.clients).isSome
          = ((if j = i then some false else none).getD
              (mapLookup i r.clients).isSome)
        by_cases hj : j = i
        · rw [if_pos hj.symm, if_pos hj]
          rfl
        · rw [if_neg (fun hh : i = j => hj hh.symm), if_neg hj]

theorem mapLookup_isSome_of_mem_keys {k : String} {m : List (String × α)}
    (h : k ∈ keysOf m) : (mapLookup k m).isSome := by
  induction m with
  | nil => simp [keysOf] at h
  | cons p ps ih =>
    by_cases hk : p.1 = k
    · simp [mapLookup, hk]
    · rw [keysOf_cons] at h
      rcases List.mem_cons.mp h with h1 | h2
      · exact absurd h1.symm hk
      · simp only [mapLookup, hk, if_false]
        exact ih h2

theorem nodupKeys_runAR (ops : List ARop) :
    ∀ r : Registry, (keysOf r.clients).Nodup → (keysOf (runAR r ops).clients).Nodup := by
  induction ops with
  | nil => intro r hnd; exact hnd
  | cons op rest ih =>
    intro r hnd
    exact ih (applyAR r op) (nodupKeys_applyAR r op hnd)

theorem finalAdded_isSome_of_mem_added (ops : List ARop) (i : String)
    (h : i ∈ addedIds ops) : (finalAdded ops i).isSome := by
  induction ops with
  | nil => exact absurd h (List.not_mem_nil i)
  | cons op rest ih =>
    cases op with
    | add c =>
      rw [show finalAdded (ARop.add c :: rest) i
          = (match finalAdded rest i with
             | some b => some b
             | none => if c.id = i then some true else none) from rfl]
      cases hfin : finalAdded rest i with
      | some b => rfl
      | none =>
        rw [show addedIds (ARop.add c :: rest) = c.id :: addedIds rest from rfl] at h
        rcases List.mem_cons.mp h with h1 | h2
        · show (if c.id = i then some true else none).isSome
          rw [if_pos h1.symm]
          rfl
        · rw [hfin] at ih
          exact absurd (ih h2) (by simp)
    | remove j =>
      rw [show finalAdded (ARop.remove j :: rest) i
          = (match finalAdded rest i with
             | some b => some b
             | none => if j = i then some false else none) from rfl]
      cases hfin : finalAdded rest i with
      | some b => rfl
      | none =>
        rw [show addedIds (ARop.remove j :: rest) = addedIds rest from rfl] at h
        rw [hfin] at ih
        exact absurd (ih h) (by simp)

theorem mem_added_of_finalAdded_true (ops : List ARop) (i : String)
    (h : finalAdded ops i = some true) : i ∈ addedIds ops := by
  induction ops with
  | nil => exact absurd h (by simp [finalAdded])
  | cons op rest ih =>
    cases op with
    | add c =>
      rw [show finalAdded (ARop.add c :: rest) i
          = (match finalAdded rest i with
             | some b => some b
             | none => if c.id = i then some true else none) from rfl] at h
      rw [show addedIds (ARop.add c :: rest) = c.id :: addedIds rest from rfl]
      cases hfin : finalAdded rest i with
      | some b =>
        rw [hfin] at h
        have hb : b = true := Option.some.inj h
        exact List.mem_cons_of_mem _ (ih (hb ▸ hfin))
      | none =>
        rw [hfin] at h
        by_cases hc : c.id = i
        · subst hc
          exact List.mem_cons_self _ _
        · rw [if_neg hc] at h
          exact absurd h (by simp)
    | remove j =>
      rw [show finalAdded (ARop.remove j :: rest) i
          = (match finalAdded rest i with
             | some b => some b
             | none => if j = i then some false else none) from rfl] at h
      rw [show addedIds (ARop.remove j :: rest) = addedIds rest from rfl]
      cases hfin : finalAdded rest i with
      | some b =>
        rw [hfin] at h
        have hb : b = true := Option.some.inj h
        exact ih (hb ▸ hfin)
      | none =>
        rw [hfin] at h
        by_cases hc : j = i
        · rw [if_pos hc] at h
          exact absurd h (by simp)
        · rw [if_neg hc] at h
          exact absurd h (by simp)

/-! ### Claims -/

/-- **C6** (counterexample): with `maxClientsPerUser = 0`, `addClient` first
evicts the just-inserted client (it is the oldest member of its own user set)
and *then* adds its id to the session index, leaving a session-index entry
whose id is absent from the primary map — the claimed invariant is not
preserved by every public operation for every configuration. -/
theorem registry_invariant_counterexample :
    ¬ ClaimInv (addClient (initRegistry 0 30000)
      { id := "x", userId := some "u", sessionId := some "s" }) := by
  decide

/-- **C6** (amended): provided `maxClientsPerUser ≥ 1`, the spec's index
invariant (each id in at most one user-index set and one session-index set,
index entries backed by the primary map, no empty sets) holds in the initial
state and is preserved by every public operation; it is established through
the strengthened inductive invariant `wellFormed`, which holds initially, is
preserved by every operation, and implies the claimed invariant. -/
theorem registry_invariant (m : Nat) (hb : Int) :
    ClaimInv (initRegistry m hb) ∧
    wellFormed (initRegistry m hb) ∧
    (∀ r : Registry, wellFormed r → ClaimInv r) ∧
    (∀ (r : Registry) (op : Op), 1 ≤ r.maxClientsPerUser → wellFormed r →
      wellFormed (applyOp r op)) :=
  ⟨ClaimInv_of_wellFormed _ (wellFormed_initRegistry m hb),
    wellFormed_initRegistry m hb,
    fun r h => ClaimInv_of_wellFormed r h,
    fun r op hm h => wellFormed_applyOp r op hm h⟩

/-- Witness for `registry_invariant`: the invariant after a concrete `addClient`. -/
theorem registry_invariant_witness :
    ClaimInv (applyOp (initRegistry 5 30000)
      (Op.add { id := "a", userId := some "u", sessionId := some "s" })) :=
  (registry_invariant 5 30000).2.2.1 _
    ((registry_invariant 5 30000).2.2.2 (initRegistry 5 30000)
      (Op.add { id := "a", userId := some "u", sessionId := some "s" })
      (by decide) (registry_invariant 5 30000).2.1)

/-- **C2** (counterexample): the format/parse round-trip does *not* preserve an
empty `data` string — `formatSSEEvent` skips falsy fields, so
`{event := "x", data := ""}` is formatted without a `data` line and parsing
recovers no `data` field at all. -/
theorem roundtrip_counterexample :
    ¬ (parseSSEEvent (formatSSEEvent { event := "x", data := "" })
        = some { id := none, event := some "x", data := some "", retry := none }) := by
  decide

/-- **C2** (amended): formatting an event and parsing the result per the §6
wire format recovers the original `type`, `data`, `id` and `retry` fields,
provided the `event` and `data` strings are non-empty and newline-free, the
`id` (when present) is non-empty and newline-free, and `retry` (when present)
is non-zero — exactly the values whose JS-truthiness the formatter does not
collapse. -/
theorem formatSSEEvent_roundtrip (e : SSEEvent)
    (hEv : e.event ≠ "") (hEvNl : '\n' ∉ e.event.data)
    (hDa : e.data ≠ "") (hDaNl : '\n' ∉ e.data.data)
    (hId : ∀ i, e.id = some i → i ≠ "" ∧ '\n' ∉ i.data)
    (hRe : e.retry ≠ some 0) :
    parseSSEEvent (formatSSEEvent e)
      = some { id := e.id, event := some e.event, data := some e.data, retry := e.retry } := by
  rcases e with ⟨ev, da, id?, re?⟩
  simp only at hEv hDa hEvNl hDaNl hId hRe ⊢
  rcases id? with _ | i
  · rcases re? with _ | n
    · have hdata : (formatSSEEvent ⟨ev, da, none, none⟩).data
          = "event: ".data ++ (ev.data ++ ('\n' ::
              ("data: ".data ++ (da.data ++ ('\n' :: ('\n' :: [])))))) := by
        simp [formatSSEEvent, truthyStr, truthyNum, hEv, hDa, String.data_append]
      have hsplit : splitNl (formatSSEEvent ⟨ev, da, none, none⟩).data
          = ("event: ".data ++ ev.data) :: ("data: ".data ++ da.data) :: [[], []] := by
        rw [hdata, splitNl_append2 _ _ _ (by decide) hEvNl,
          splitNl_append2 _ _ _ (by decide) hDaNl]
        rfl
      simp only [parseSSEEvent, hsplit, fieldLine_id_ev, fieldLine_hit, fieldLine_retry_nil]
      rfl
    · have hn : n ≠ 0 := fun hh => hRe (by rw [hh])
      have hdata : (formatSSEEvent ⟨ev, da, none, some n⟩).data
          = "event: ".data ++ (ev.data ++ ('\n' ::
              ("data: ".data ++ (da.data ++ ('\n' ::
                ("retry: ".data ++ ((intToDecimal n).data ++ ('\n' :: ('\n' :: []))))))))) := by
        simp [formatSSEEvent, truthyStr, truthyNum, hEv, hDa, hn, String.data_append]
      have hsplit : splitNl (formatSSEEvent ⟨ev, da, none, some n⟩).data
          = ("event: ".data ++ ev.data) :: ("data: ".data ++ da.data)
              :: ("retry: ".data ++ (intToDecimal n).data) :: [[], []] := by
        rw [hdata, splitNl_append2 _ _ _ (by decide) hEvNl,
          splitNl_append2 _ _ _ (by decide) hDaNl,
          splitNl_append2 _ _ _ (by decide) (nl_not_mem_intToDecimal n)]
        rfl
      have hred : parseSSEEvent (formatSSEEvent ⟨ev, da, none, some n⟩)
          = (parseInt (intToDecimal n).data).map
              (fun m => { id := none, event := some ev, data := some da, retry := some m }) := by
        simp only [parseSSEEvent, hsplit]
        rfl
      rw [hred, parseInt_intToDecimal]
      rfl
  · obtain ⟨hiNe, hiNl⟩ := hId i rfl
    rcases re? with _ | n
    · have hdata : (formatSSEEvent ⟨ev, da, some i, none⟩).data
          = "id: ".data ++ (i.data ++ ('\n' ::
              ("event: ".data ++ (ev.data ++ ('\n' ::
                ("data: ".data ++ (da.data ++ ('\n' :: ('\n' :: []))))))))) := by
        simp [formatSSEEvent, truthyStr, truthyNum, hEv, hDa, hiNe, String.data_append]
      have hsplit : splitNl (formatSSEEvent ⟨ev, da, some i, none⟩).data
          = ("id: ".data ++ i.data) :: ("event: ".data ++ ev.data)
              :: ("data: ".data ++ da.data) :: [[], []] := by
        rw [hdata, splitNl_append2 _ _ _ (by decide) hiNl,
          splitNl_append2 _ _ _ (by decide) hEvNl,
          splitNl_append2 _ _ _ (by decide) hDaNl]
        rfl
      simp only [parseSSEEvent, hsplit, fieldLine_hit, fieldLine_retry_nil]
      rfl
    · have hn : n ≠ 0 := fun hh => hRe (by rw [hh])
      have hdata : (formatSSEEvent ⟨ev, da, some i, some n⟩).data
          = "id: ".data ++ (i.data ++ ('\n' ::
              ("event: ".data ++ (ev.data ++ ('\n' ::
                ("data: ".data ++ (da.data ++ ('\n' ::
                  ("retry: ".data ++ ((intToDecimal n).data ++ ('\n' :: ('\n' :: [])))))))))))) := by
        simp [formatSSEEvent, truthyStr, truthyNum, hEv, hDa, hiNe, hn, String.data_append]
      have hsplit : splitNl (formatSSEEvent ⟨ev, da, some i, some n⟩).data
          = ("id: ".data ++ i.data) :: ("event: ".data ++ ev.data)
              :: ("data: ".data ++ da.data)
              :: ("retry: ".data ++ (intToDecimal n).data) :: [[], []] := by
        rw [hdata, splitNl_append2 _ _ _ (by decide) hiNl,
          splitNl_append2 _ _ _ (by decide) hEvNl,
          splitNl_append2 _ _ _ (by decide) hDaNl,
          splitNl_append2 _ _ _ (by decide) (nl_not_mem_intToDecimal n)]
        rfl
      have hred : parseSSEEvent (formatSSEEvent ⟨ev, da, some i, some n⟩)
          = (parseInt (intToDecimal n).data).map
              (fun m => { id := some i, event := some ev, data := some da, retry := some m }) := by
        simp only [parseSSEEvent, hsplit]
        rfl
      rw [hred, parseInt_intToDecimal]
      rfl

/-- Witness for `formatSSEEvent_roundtrip` at a concrete event. -/
theorem formatSSEEvent_roundtrip_witness :
    parseSSEEvent (formatSSEEvent { event := "msg", data := "payload", id := some "7", retry := some 1500 })
      = some { id := some "7", event := some "msg", data := some "payload", retry := some 1500 } :=
  formatSSEEvent_roundtrip _ (by decide) (by decide) (by decide) (by decide)
    (fun i h => by
      injection h with h2
      subst h2
      exact ⟨by decide, by decide⟩)
    (by decide)

/-- **C1** (counterexample): a registered client whose record has
`isConnected = false` makes `sendToClient` return `false` *without removing*
the connection — only the sink-write-failure branch removes; the claim's
"returns false and the connection is removed" is wrong for this case. -/
theorem sendToClient_counterexample :
    (sendToClient (addClient (initRegistry 5 30000)
        { id := "c", isConnected := false }) "c"
        { event := "e", data := "d" } 5).2.1 = false ∧
    ¬ (mapLookup "c" (sendToClient (addClient (initRegistry 5 30000)
        { id := "c", isConnected := false }) "c"
        { event := "e", data := "d" } 5).1.clients = none) := by
  decide

/-- **C1** (amended): on a well-formed state, `sendToClient(id, event)`
returns `false` leaving the state unchanged when the id is unknown; returns
`false` leaving the state unchanged (the connection **stays registered**)
when the record exists with `isConnected = false`; on a sink-write failure it
makes the enqueue attempt, returns `false` and removes the connection from
the primary map, its user index and its session index; otherwise it writes
the serialized event, updates `lastPing`, and returns `true`. -/
theorem sendToClient_spec (r : Registry) (i : String) (e : SSEEvent) (now : Int)
    (h : wellFormed r) :
    (mapLookup i r.clients = none → sendToClient r i e now = (r, false, [])) ∧
    (∀ c, mapLookup i r.clients = some c → c.isConnected = false →
      sendToClient r i e now = (r, false, [])) ∧
    (∀ c, mapLookup i r.clients = some c → c.isConnected = true → c.writeOk = false →
      (sendToClient r i e now).2.1 = false ∧
      (sendToClient r i e now).2.2 = [(i, formatSSEEvent e)] ∧
      mapLookup i (sendToClient r i e now).1.clients = none ∧
      (∀ u, ¬ inIndex (sendToClient r i e now).1.userClients u i) ∧
      (∀ s, ¬ inIndex (sendToClient r i e now).1.sessionClients s i)) ∧
    (∀ c, mapLookup i r.clients = some c → c.isConnected = true → c.writeOk = true →
      (sendToClient r i e now).2.1 = true ∧
      (sendToClient r i e now).2.2 = [(i, formatSSEEvent e)] ∧
      mapLookup i (sendToClient r i e now).1.clients
        = some { c with written := c.written ++ [formatSSEEvent e], lastPing := now }) := by
  refine ⟨?_, ?_, ?_, ?_⟩
  · intro hn
    exact sendToClient_of_none e now hn
  · intro c hc hd
    exact sendToClient_of_disconnected e now hc hd
  · intro c hc hcon hw
    rw [sendToClient_of_writeFail e now hc hcon hw]
    have hwf' : wellFormed (removeClient r i) := wellFormed_removeClient r i h
    have hlook : mapLookup i (removeClient r i).clients = none := by
      rw [removeClient_clients_lookup r i i h.1, if_pos rfl]
    refine ⟨rfl, rfl, hlook, ?_, ?_⟩
    · intro u hin
      obtain ⟨c', hc', -, -⟩ := (hwf'.2.2.2.1 u i).mp hin
      rw [hlook] at hc'
      cases hc'
    · intro s hin
      obtain ⟨c', hc', -, -⟩ := (hwf'.2.2.2.2 s i).mp hin
      rw [hlook] at hc'
      cases hc'
  · intro c hc hcon hw
    rw [sendToClient_of_writeOk e now hc hcon hw]
    refine ⟨rfl, rfl, ?_⟩
    show mapLookup i (updateKey i (recordWrite e now) r.clients) = _
    rw [mapLookup_updateKey_self, hc]
    rfl

/-- Witness for `sendToClient_spec`: the write-failure branch at a concrete
state removes the failing connection. -/
theorem sendToClient_spec_witness :
    (sendToClient (addClient (initRegistry 5 30000)
        { id := "a", userId := some "u", sessionId := some "s", writeOk := false })
        "a" { event := "e", data := "d" } 7).2.1 = false ∧
    mapLookup "a" (sendToClient (addClient (initRegistry 5 30000)
        { id := "a", userId := some "u", sessionId := some "s", writeOk := false })
        "a" { event := "e", data := "d" } 7).1.clients = none := by
  have h := (sendToClient_spec
    (addClient (initRegistry 5 30000)
      { id := "a", userId := some "u", sessionId := some "s", writeOk := false })
    "a" { event := "e", data := "d" } 7
    (wellFormed_addClient _ _ (by decide) (wellFormed_initRegistry 5 30000))).2.2.1
    { id := "a", userId := some "u", sessionId := some "s", writeOk := false }
    (by decide) (by decide) (by decide)
  exact ⟨h.1, h.2.2.1⟩

/-- **C3** (counterexample): the eviction guard `if (oldestClientId)` is JS
truthiness, so when the oldest connection of a user at the ceiling has the
empty string as its id, adding a fresh connection performs *no* eviction and
the user's count exceeds the configured ceiling (here 2 > 1). -/
theorem addClient_eviction_counterexample :
    getClientCountForUser (addClient (initRegistry 1 30000)
      { id := "", userId := some "u" }) "u" = 1 ∧
    getClientCountForUser (addClient (addClient (initRegistry 1 30000)
      { id := "", userId := some "u" }) { id := "y", userId := some "u" }) "u" = 2 := by
  decide

/-- **C3** (amended): provided `maxClientsPerUser ≥ 1` and no registered
connection id is the empty string, (a) adding a fresh connection for a user
already at the ceiling evicts exactly the oldest connection of that user (the
head of the set in registration order), appends the new id, keeps the count at
the ceiling, and changes no other client record; and (b) after any single
public operation from a bounded well-formed state, no user's count exceeds the
configured ceiling. -/
theorem addClient_eviction (r0 : Registry) :
    (∀ (r : Registry) (c : SSEClient) (U : String),
      wellFormed r → 1 ≤ r.maxClientsPerUser →
      (∀ p ∈ r.clients, (p : String × SSEClient).1 ≠ "") →
      mapLookup c.id r.clients = none → c.userId = some U →
      getClientCountForUser r U = r.maxClientsPerUser →
      ∃ o t, mapLookup U r.userClients = some (o :: t) ∧
        getUserClients (addClient r c) U = t ++ [c.id] ∧
        getClientCountForUser (addClient r c) U = r.maxClientsPerUser ∧
        mapLookup o (addClient r c).clients = none ∧
        mapLookup c.id (addClient r c).clients = some c ∧
        (∀ j, j ≠ o → j ≠ c.id →
          mapLookup j (addClient r c).clients = mapLookup j r.clients)) ∧
    (∀ (op : Op), wellFormed r0 → 1 ≤ r0.maxClientsPerUser →
      (∀ p ∈ r0.clients, (p : String × SSEClient).1 ≠ "") → bounded r0 →
      ∀ u, getClientCountForUser (applyOp r0 op) u ≤ r0.maxClientsPerUser) :=
  ⟨fun r c U h hmax hids hfresh hcu hcount =>
      addClient_evict_shape r c U h hmax hids hfresh hcu hcount,
    fun op h hmax hids hb u => bounded_applyOp r0 op h hmax hids hb u⟩

/-- Witness for `addClient_eviction`: at the ceiling `1`, adding a second
connection for the same user evicts the first. -/
theorem addClient_eviction_witness :
    ∃ o t, mapLookup "u" (addClient (initRegistry 1 30000)
        { id := "x1", userId := some "u" }).userClients = some (o :: t) ∧
      getUserClients (addClient (addClient (initRegistry 1 30000)
        { id := "x1", userId := some "u" }) { id := "x2", userId := some "u" }) "u"
        = t ++ ["x2"] ∧
      getClientCountForUser (addClient (addClient (initRegistry 1 30000)
        { id := "x1", userId := some "u" }) { id := "x2", userId := some "u" }) "u"
        = (addClient (initRegistry 1 30000)
            { id := "x1", userId := some "u" }).maxClientsPerUser ∧
      mapLookup o (addClient (addClient (initRegistry 1 30000)
        { id := "x1", userId := some "u" }) { id := "x2", userId := some "u" }).clients
        = none ∧
      mapLookup "x2" (addClient (addClient (initRegistry 1 30000)
        { id := "x1", userId := some "u" }) { id := "x2", userId := some "u" }).clients
        = some { id := "x2", userId := some "u" } ∧
      (∀ j, j ≠ o → j ≠ "x2" →
        mapLookup j (addClient (addClient (initRegistry 1 30000)
          { id := "x1", userId := some "u" }) { id := "x2", userId := some "u" }).clients
          = mapLookup j (addClient (initRegistry 1 30000)
              { id := "x1", userId := some "u" }).clients) :=
  (addClient_eviction (initRegistry 1 30000)).1
    (addClient (initRegistry 1 30000) { id := "x1", userId := some "u" })
    { id := "x2", userId := some "u" } "u"
    (wellFormed_addClient _ _ (by decide) (wellFormed_initRegistry 1 30000))
    (by decide) (by decide) (by decide) rfl (by decide)

/-- Claim C4 (counterexample): an eviction breaks the add/remove counting
law. With `maxClientsPerUser = 1`, adding two distinct connections for the
same user evicts the first: two distinct ids were added and neither was ever
passed to `removeClient`, yet `getClientCount()` is 1, not 2. -/
theorem ar_count_counterexample :
    getClientCount (runAR (initRegistry 1 30000)
        [ARop.add { id := "x1", userId := some "u" },
         ARop.add { id := "x2", userId := some "u" }]) = 1 ∧
    ((addedIds [ARop.add { id := "x1", userId := some "u" },
        ARop.add ({ id := "x2", userId := some "u" } : SSEClient)]).dedup.length
      - ((addedIds [ARop.add { id := "x1", userId := some "u" },
          ARop.add ({ id := "x2", userId := some "u" } : SSEClient)]).dedup.filter
            (fun i => !((finalAdded [ARop.add { id := "x1", userId := some "u" },
              ARop.add ({ id := "x2", userId := some "u" } : SSEClient)] i).getD
                true))).length) = 2 := by
  decide

/-- Claim C4 (amended): for every finite sequence of `addClient` and
`removeClient` calls starting from the empty registry in which no `addClient`
call triggers an eviction, `getClientCount()` afterwards equals the number of
distinct ids added minus the number of those ids whose last naming call in
the sequence is a `removeClient` (adding the same id twice counts once: the
second add replaces the first; an id removed and later re-added counts).
Eviction invalidates the law, as the counterexample shows. -/
theorem ar_count (m : Nat) (hb : Int) (ops : List ARop)
    (hef : evictionFreeB (initRegistry m hb) ops = true) :
    getClientCount (runAR (initRegistry m hb) ops)
      = (addedIds ops).dedup.length
        - ((addedIds ops).dedup.filter
            (fun i => !((finalAdded ops i).getD true))).length := by
  have hnd0 : (keysOf (initRegistry m hb).clients).Nodup := List.nodup_nil
  have hndL : (keysOf (runAR (initRegistry m hb) ops).clients).Nodup :=
    nodupKeys_runAR ops _ hnd0
  have hmemL : ∀ i, i ∈ keysOf (runAR (initRegistry m hb) ops).clients
      ↔ finalAdded ops i = some true := by
    intro i
    constructor
    · intro hi
      have h1 : (mapLookup i (runAR (initRegistry m hb) ops).clients).isSome = true :=
        mapLookup_isSome_of_mem_keys hi
      rw [runAR_lookup ops _ hnd0 hef i] at h1
      cases hfin : finalAdded ops i with
      | none =>
        rw [hfin] at h1
        have h2 : (false : Bool) = true := h1
        exact Bool.noConfusion h2
      | some b =>
        rw [hfin] at h1
        cases b with
        | true => rfl
        | false =>
          have h2 : (false : Bool) = true := h1
          exact Bool.noConfusion h2
    · intro hi
      have h1 : (mapLookup i (runAR (initRegistry m hb) ops).clients).isSome = true := by
        rw [runAR_lookup ops _ hnd0 hef i, hi]
        rfl
      exact mem_keys_of_mapLookup_isSome h1
  have hmemD : ∀ i, i ∈ (addedIds ops).dedup.filter
      (fun i => (finalAdded ops i).getD false)
      ↔ finalAdded ops i = some true := by
    intro i
    rw [List.mem_filter, List.mem_dedup]
    constructor
    · rintro ⟨_, hp0⟩
      have hp : (finalAdded ops i).getD false = true := hp0
      cases hfin : finalAdded ops i with
      | none =>
        rw [hfin] at hp
        exact Bool.noConfusion hp
      | some b =>
        rw [hfin] at hp
        cases b with
        | true => rfl
        | false => exact Bool.noConfusion hp
    · intro hi
      refine ⟨mem_added_of_finalAdded_true ops i hi, ?_⟩
      show (finalAdded ops i).getD false = true
      rw [hi]
      rfl
  have hperm : (keysOf (runAR (initRegistry m hb) ops).clients).Perm
      ((addedIds ops).dedup.filter (fun i => (finalAdded ops i).getD false)) :=
    (List.perm_ext_iff_of_nodup hndL ((addedIds ops).nodup_dedup.filter _)).mpr
      (fun a => (hmemL a).trans (hmemD a).symm)
  have hpart : (addedIds ops).dedup.length
      = ((addedIds ops).dedup.filter (fun i => (finalAdded ops i).getD false)).length
        + ((addedIds ops).dedup.filter
            (fun i => !((finalAdded ops i).getD false))).length :=
    List.length_eq_length_filter_add _
  have hcongr : (addedIds ops).dedup.filter (fun i => !((finalAdded ops i).getD false))
      = (addedIds ops).dedup.filter (fun i => !((finalAdded ops i).getD true)) := by
    apply List.filter_congr
    intro x hx
    have hxadd : x ∈ addedIds ops := List.mem_dedup.mp hx
    have hsome := finalAdded_isSome_of_mem_added ops x hxadd
    show (!((finalAdded ops x).getD false)) = (!((finalAdded ops x).getD true))
    cases hfin : finalAdded ops x with
    | none =>
      rw [hfin] at hsome
      exact absurd hsome (by simp)
    | some b => rfl
  calc getClientCount (runAR (initRegistry m hb) ops)
      = (keysOf (runAR (initRegistry m hb) ops).clients).length :=
        (List.length_map _ _).symm
    _ = ((addedIds ops).dedup.filter (fun i => (finalAdded ops i).getD false)).length :=
        hperm.length_eq
    _ = (addedIds ops).dedup.length
          - ((addedIds ops).dedup.filter
              (fun i => !((finalAdded ops i).getD true))).length := by
        rw [← hcongr]
        omega

/-- Claim C4 (witness): a concrete eviction-free run exercising the amended
count law: add `a1` and `a2` for user `u`, remove `a1`, then add `a3`; the
count is 2, which is 3 distinct added ids minus the 1 subsequently removed. -/
theorem ar_count_witness :
    evictionFreeB (initRegistry 5 30000)
        [ARop.add { id := "a1", userId := some "u" },
         ARop.add { id := "a2", userId := some "u" },
         ARop.remove "a1",
         ARop.add { id := "a3" }] = true ∧
    getClientCount (runAR (initRegistry 5 30000)
        [ARop.add { id := "a1", userId := some "u" },
         ARop.add { id := "a2", userId := some "u" },
         ARop.remove "a1",
         ARop.add { id := "a3" }])
      = (addedIds [ARop.add { id := "a1", userId := some "u" },
           ARop.add { id := "a2", userId := some "u" },
           ARop.remove "a1",
           ARop.add ({ id := "a3" } : SSEClient)]).dedup.length
        - ((addedIds [ARop.add { id := "a1", userId := some "u" },
             ARop.add { id := "a2", userId := some "u" },
             ARop.remove "a1",
             ARop.add ({ id := "a3" } : SSEClient)]).dedup.filter
              (fun i => !((finalAdded [ARop.add { id := "a1", userId := some "u" },
                ARop.add { id := "a2", userId := some "u" },
                ARop.remove "a1",
                ARop.add ({ id := "a3" } : SSEClient)] i).getD true))).length :=
  ⟨by decide,
   ar_count 5 30000
     [ARop.add { id := "a1", userId := some "u" },
      ARop.add { id := "a2", userId := some "u" },
      ARop.remove "a1",
      ARop.add { id := "a3" }] (by decide)⟩

/-- **C5**: on a well-formed state whose registered clients are connected and
carry no degenerate empty-string user id, `sendToUser(U, e)` makes a sink
write attempt of the formatted event on every currently-registered connection
with `userId = U`, and every write it performs carries the formatted event and
targets a connection registered to `U` — no other connection is written to. -/
theorem sendToUser_targets (r : Registry) (U : String) (e : SSEEvent) (now : Int)
    (h : wellFormed r)
    (hconn : ∀ p ∈ r.clients, (p.2 : SSEClient).isConnected = true)
    (hgood : ∀ p ∈ r.clients, (p.2 : SSEClient).userId ≠ some "") :
    (∀ i c, mapLookup i r.clients = some c → c.userId = some U →
      (i, formatSSEEvent e) ∈ (sendToUser r U e now).2) ∧
    (∀ i d, (i, d) ∈ (sendToUser r U e now).2 →
      d = formatSSEEvent e ∧ ∃ c, mapLookup i r.clients = some c ∧ c.userId = some U) := by
  cases hU : mapLookup U r.userClients with
  | none =>
    have htr : (sendToUser r U e now).2 = [] := by
      unfold sendToUser
      rw [hU]
    constructor
    · intro i c hc hcu
      have hUne : U ≠ "" := by
        intro hU0
        exact hgood (i, c) (mem_of_mapLookup_eq_some hc) (by rw [hcu, hU0])
      obtain ⟨s, hs, -⟩ := (h.2.2.2.1 U i).mpr ⟨c, hc, hcu, hUne⟩
      rw [hU] at hs
      cases hs
    · intro i d hd
      rw [htr] at hd
      exact absurd hd (List.not_mem_nil _)
  | some s =>
    have hsnodup : s.Nodup := (h.2.1.2 (U, s) (mem_of_mapLookup_eq_some hU)).2
    have hreg : ∀ i ∈ s, ∃ c, mapLookup i r.clients = some c ∧ c.isConnected = true := by
      intro i his
      obtain ⟨c, hc, -, -⟩ := (h.2.2.2.1 U i).mp ⟨s, hU, his⟩
      exact ⟨c, hc, hconn (i, c) (mem_of_mapLookup_eq_some hc)⟩
    have htr : (sendToUser r U e now).2 = s.map (fun i => (i, formatSSEEvent e)) := by
      unfold sendToUser
      rw [hU]
      show (sendLoop r s e now).2.2 = _
      exact sendLoop_trace e now s r h hreg hsnodup
    constructor
    · intro i c hc hcu
      have hUne : U ≠ "" := by
        intro hU0
        exact hgood (i, c) (mem_of_mapLookup_eq_some hc) (by rw [hcu, hU0])
      obtain ⟨s', hs', hmem⟩ := (h.2.2.2.1 U i).mpr ⟨c, hc, hcu, hUne⟩
      rw [hU] at hs'
      injection hs' with hs'
      subst hs'
      rw [htr]
      exact List.mem_map.mpr ⟨i, hmem, rfl⟩
    · intro i d hd
      rw [htr] at hd
      obtain ⟨i', hi', heq⟩ := List.mem_map.mp hd
      have h1 : i' = i := congrArg Prod.fst heq
      have h2 : formatSSEEvent e = d := congrArg Prod.snd heq
      subst h1
      obtain ⟨c, hc, hcu, -⟩ := (h.2.2.2.1 U i').mp ⟨s, hU, hi'⟩
      exact ⟨h2.symm, c, hc, hcu⟩

/-- Witness for `sendToUser_targets`: at a concrete two-user state, the user's
connection receives the formatted event. -/
theorem sendToUser_targets_witness :
    ("a", formatSSEEvent { event := "e", data := "d" })
      ∈ (sendToUser
          (addClient (addClient (initRegistry 5 30000)
            { id := "a", userId := some "u", sessionId := some "s" })
            { id := "b", userId := some "v", sessionId := some "s" })
          "u" { event := "e", data := "d" } 3).2 :=
  (sendToUser_targets _ "u" { event := "e", data := "d" } 3
    (wellFormed_addClient _ _ (by decide)
      (wellFormed_addClient _ _ (by decide) (wellFormed_initRegistry 5 30000)))
    (by decide) (by decide)).1
    "a" { id := "a", userId := some "u", sessionId := some "s" }
    (by decide) (by decide)

/-- **C10**: `sendToUser(U, e)` leaves every connection whose `userId` differs
from `U` (or is absent) entirely unchanged: its primary-map record (including
`lastPing` and the sink log) is identical, and its membership in every session
index and user index is untouched. -/
theorem sendToUser_frame (r : Registry) (U : String) (e : SSEEvent) (now : Int)
    (h : wellFormed r) :
    ∀ j c, mapLookup j r.clients = some c → c.userId ≠ some U →
      mapLookup j (sendToUser r U e now).1.clients = some c ∧
      (∀ sid, inIndex (sendToUser r U e now).1.sessionClients sid j
        ↔ inIndex r.sessionClients sid j) ∧
      (∀ u, inIndex (sendToUser r U e now).1.userClients u j
        ↔ inIndex r.userClients u j) := by
  intro j c hc hne
  cases hU : mapLookup U r.userClients with
  | none =>
    have hst : sendToUser r U e now = (r, []) := by
      unfold sendToUser
      rw [hU]
    rw [hst]
    exact ⟨hc, fun sid => Iff.rfl, fun u => Iff.rfl⟩
  | some s =>
    have hjnotin : j ∉ s := by
      intro hmem
      obtain ⟨c', hc', hcu, -⟩ := (h.2.2.2.1 U j).mp ⟨s, hU, hmem⟩
      rw [hc] at hc'
      injection hc' with hc'
      subst hc'
      exact hne hcu
    have hstate : (sendToUser r U e now).1
        = (sendLoop r s e now).2.1.foldl removeClient (sendLoop r s e now).1 := by
      unfold sendToUser
      rw [hU]
    have hwf1 : wellFormed (sendLoop r s e now).1 := wellFormed_sendLoop s e now r h
    have hfr1 := sendLoop_frame e now s r h j hjnotin
    have hjfail : j ∉ (sendLoop r s e now).2.1 :=
      fun hmem => hjnotin (sendLoop_failed_subset e now s r j hmem)
    have hfr2 := foldl_removeClient_frame (sendLoop r s e now).2.1 _ hwf1 j hjfail
    rw [hstate]
    refine ⟨?_, ?_, ?_⟩
    · rw [hfr2.1, hfr1.1]
      exact hc
    · exact fun sid => (hfr2.2.2 sid).trans (hfr1.2.2 sid)
    · exact fun u => (hfr2.2.1 u).trans (hfr1.2.1 u)

/-- Witness for `sendToUser_frame`: the other user's record is untouched at a
concrete state. -/
theorem sendToUser_frame_witness :
    mapLookup "b" (sendToUser
        (addClient (addClient (initRegistry 5 30000)
          { id := "a", userId := some "u", sessionId := some "s" })
          { id := "b", userId := some "v", sessionId := some "s" })
        "u" { event := "e", data := "d" } 3).1.clients
      = some { id := "b", userId := some "v", sessionId := some "s" } :=
  ((sendToUser_frame _ "u" { event := "e", data := "d" } 3
    (wellFormed_addClient _ _ (by decide)
      (wellFormed_addClient _ _ (by decide) (wellFormed_initRegistry 5 30000))))
    "b" { id := "b", userId := some "v", sessionId := some "s" }
    (by decide) (by decide)).1

/-- **C7**: for every registry state (with the distinct-keys property every
JS `Map` has) and every current time, `cleanup()` removes exactly the
connections whose `lastPing` is strictly older than `2 × heartbeatInterval`
and keeps every fresher connection untouched. -/
theorem cleanup_exact (r : Registry) (now : Int)
    (hnd : (keysOf r.clients).Nodup) (j : String) :
    mapLookup j (cleanup r now).clients
      = match mapLookup j r.clients with
        | some c => if now - c.lastPing > r.heartbeatInterval * 2 then none else some c
        | none => none := by
  unfold cleanup
  rw [foldl_removeClient_lookup _ r hnd j]
  by_cases hmem : j ∈ keysOf (r.clients.filter
      (fun p => now - p.2.lastPing > r.heartbeatInterval * 2))
  · obtain ⟨c, hc, hstale⟩ := (mem_staleKeys_iff r now j hnd).mp hmem
    rw [if_pos hmem, hc]
    show none = if now - c.lastPing > r.heartbeatInterval * 2 then none else some c
    rw [if_pos hstale]
  · rw [if_neg hmem]
    cases hc : mapLookup j r.clients with
    | none => rfl
    | some c =>
      by_cases hstale : now - c.lastPing > r.heartbeatInterval * 2
      · exact absurd ((mem_staleKeys_iff r now j hnd).mpr ⟨c, hc, hstale⟩) hmem
      · show some c = if now - c.lastPing > r.heartbeatInterval * 2 then none else some c
        rw [if_neg hstale]

/-- Witness for `cleanup_exact`: a stale connection is removed at a concrete
state and time. -/
theorem cleanup_exact_witness :
    mapLookup "old"
        (cleanup (addClient (addClient (initRegistry 5 10)
          { id := "old", lastPing := 0 }) { id := "fresh", lastPing := 95 }) 100).clients
      = match mapLookup "old"
          (addClient (addClient (initRegistry 5 10)
            { id := "old", lastPing := 0 }) { id := "fresh", lastPing := 95 }).clients with
        | some c => if (100 : Int) - c.lastPing
            > (addClient (addClient (initRegistry 5 10)
              { id := "old", lastPing := 0 }) { id := "fresh", lastPing := 95 }).heartbeatInterval * 2
            then none else some c
        | none => none :=
  cleanup_exact _ 100 (by decide) "old"

/-- **C8**: the Dispatch Service send operation and every typed wrapper return
success regardless of adapter availability and of publish failure: local
delivery is always attempted first and a distribution failure never flips the
result. -/
theorem service_send_returns_true (svc : SSEServiceState) (u t d : String) (now : Int) :
    (serviceSendToUser svc u t d now).2 = true ∧
    (sendNotification svc u d now).2 = true ∧
    (sendReelUploadProgress svc u d now).2 = true ∧
    (sendReelReady svc u d now).2 = true ∧
    (sendUserUpdate svc u d now).2 = true ∧
    (sendSystemAlert svc u d now).2 = true ∧
    (sendCustomEvent svc u t d now).2 = true := by
  have hbase : ∀ t', (serviceSendToUser svc u t' d now).2 = true := by
    intro t'
    unfold serviceSendToUser
    by_cases ha : svc.adapter.available
    · by_cases hp : svc.adapter.publishFails
      · simp [ha, hp]
      · simp [ha, hp]
    · simp [ha]
  exact ⟨hbase t, hbase _, hbase _, hbase _, hbase _, hbase _, hbase t⟩

/-- **C9**: after `destroy()`, every send operation is a no-op — the state is
unchanged, no enqueue call is made on any sink (the write trace is empty), and
`getClientCount()` stays `0`.  (The embedding is total, so "does not throw"
holds by construction.) -/
theorem destroy_send_noop (r : Registry) (i U sid : String) (e : SSEEvent)
    (excl : List String) (now : Int) :
    sendToClient (destroy r) i e now = (destroy r, false, []) ∧
    sendToUser (destroy r) U e now = (destroy r, []) ∧
    sendToSession (destroy r) sid e now = (destroy r, []) ∧
    broadcast (destroy r) e excl now = (destroy r, []) ∧
    pingClient (destroy r) i now = (destroy r, false, []) ∧
    getClientCount (destroy r) = 0 :=
  ⟨rfl, rfl, rfl, rfl, rfl, rfl⟩

end SSE
